import Mathlib

/-!
Shallow embedding of the geo-textual retrieval engine of
`src/search/retrieval.cpp` (namespace `search`, class `Retrieval`).

Pure data is embedded directly; the stateful `Go` loop is modelled as a
fuel-indexed recursion that returns the final bucket list together with the
ordered list of sink invocations (`Callback::OnMwmProcessed` calls), a flag
telling whether the loop exited through one of its three `break` conditions
(as opposed to running out of fuel), and the number of loop iterations that
were executed.  The two `Limits` getters carry an assertion that the limit
is set; they are embedded as `Option`-valued functions returning `none` when
the assertion would fire, and the whole `Go` computation propagates that
failure, so "the assertion is unreachable" becomes "`Go` never returns
`none`".

The external collaborators (trie matcher, scale index, `m2::RectD`) are not
part of the repository sources; the parts of their behaviour the engine
depends on are modelled from the spec, see the individual doc comments.
Scalar values that are `double` in the source (viewport scales) are embedded
as `Int`; the growth factor `kViewportScaleMul = sqrt(2.0)` is kept as an
explicit parameter `mul` of the loop.
-/

/-- Modelled from the spec: `m2::RectD`, an axis-aligned rectangle in the
common geographic coordinate system (the class itself is an external
collaborator, not under the repository sources).  Coordinates are embedded
as integers. -/
structure Rect where
  minX : Int
  minY : Int
  maxX : Int
  maxY : Int
deriving DecidableEq

/-- Modelled from the spec: `m2::RectD::IsIntersect` — two closed
axis-aligned rectangles intersect iff they overlap on both axes. -/
def Rect.isIntersect (a b : Rect) : Bool :=
  decide (a.minX ≤ b.maxX) && decide (b.minX ≤ a.maxX) &&
  decide (a.minY ≤ b.maxY) && decide (b.minY ≤ a.maxY)

/-- Modelled from the spec: `a.isRectInside b` embeds
`a.IsRectInside(b)`, that is, `b` lies fully inside `a`. -/
def Rect.isRectInside (a b : Rect) : Bool :=
  decide (a.minX ≤ b.minX) && decide (b.maxX ≤ a.maxX) &&
  decide (a.minY ≤ b.minY) && decide (b.maxY ≤ a.maxY)

/-- Modelled from the spec: `m2::RectD::Scale` — uniform scaling of the
rectangle about its centroid by the given factor (design note §9 of the
spec: "Scaling a rectangle by `s` means uniform scaling about its
centroid").  Over integer coordinates the halving uses integer division;
on rectangles whose centroid has integer coordinates the result is exact. -/
def Rect.scale (r : Rect) (s : Int) : Rect :=
  { minX := (r.minX + r.maxX - (r.maxX - r.minX) * s) / 2
    maxX := (r.minX + r.maxX + (r.maxX - r.minX) * s) / 2
    minY := (r.minY + r.maxY - (r.maxY - r.minY) * s) / 2
    maxY := (r.minY + r.maxY + (r.maxY - r.minY) * s) / 2 }

/-- `Retrieval::Limits` (retrieval.cpp:66-96): two optional scalar limits;
"unset" is distinct from zero.  `m_maxViewportScale` is a `double` in the
source, embedded as `Int`. -/
structure Limits where
  m_minNumFeatures : Nat
  m_maxViewportScale : Int
  m_minNumFeaturesSet : Bool
  m_maxViewportScaleSet : Bool
deriving DecidableEq

/-- `Retrieval::Limits::Limits()` (retrieval.cpp:66-72). -/
def Limits.default : Limits :=
  { m_minNumFeatures := 0
    m_maxViewportScale := 0
    m_minNumFeaturesSet := false
    m_maxViewportScaleSet := false }

/-- `Retrieval::Limits::SetMinNumFeatures` (retrieval.cpp:74-78). -/
def Limits.setMinNumFeatures (l : Limits) (v : Nat) : Limits :=
  { l with m_minNumFeatures := v, m_minNumFeaturesSet := true }

/-- `Retrieval::Limits::SetMaxViewportScale` (retrieval.cpp:86-90). -/
def Limits.setMaxViewportScale (l : Limits) (v : Int) : Limits :=
  { l with m_maxViewportScale := v, m_maxViewportScaleSet := true }

/-- `Retrieval::Limits::IsMinNumFeaturesSet`. -/
def Limits.isMinNumFeaturesSet (l : Limits) : Bool := l.m_minNumFeaturesSet

/-- `Retrieval::Limits::IsMaxViewportScaleSet`. -/
def Limits.isMaxViewportScaleSet (l : Limits) : Bool := l.m_maxViewportScaleSet

/-- `Retrieval::Limits::GetMinNumFeatures` (retrieval.cpp:80-84): the getter
asserts that the limit is set; the assertion firing is embedded as `none`. -/
def Limits.getMinNumFeatures (l : Limits) : Option Nat :=
  if l.m_minNumFeaturesSet then some l.m_minNumFeatures else none

/-- `Retrieval::Limits::GetMaxViewportScale` (retrieval.cpp:92-96): the
getter asserts that the limit is set; the assertion firing is embedded as
`none`. -/
def Limits.getMaxViewportScale (l : Limits) : Option Int :=
  if l.m_maxViewportScaleSet then some l.m_maxViewportScale else none

/-- `std::sort` over a sequence of feature ids (retrieval.cpp:185 and 193).
Feature ids carry a total order, so the sorted permutation is unique and an
insertion sort embeds `std::sort` faithfully. -/
def sortIds (l : List Nat) : List Nat := l.insertionSort (· ≤ ·)

/-- `std::set_intersection` (retrieval.cpp:196-198) on ranges of feature
ids: the standard two-pointer merge.  The reference algorithm advances the
second range past every element smaller than the head of the first range
(`dropWhile`), then either emits the common element and advances both
ranges, or advances the first range.  A value occurring `m` times in the
first range and `n` times in the second occurs `min m n` times in the
output. -/
def setIntersection : List Nat → List Nat → List Nat
  | [], _ => []
  | a :: as, bs =>
    match bs.dropWhile (fun b => decide (b < a)) with
    | [] => []
    | b :: bs' =>
      if a = b then a :: setIntersection as bs'
      else setIntersection as (b :: bs')

/-- `Retrieval::FeatureBucket` (retrieval.hpp via retrieval.cpp:98-108):
per-tile state.  `m_mwmId` stands for `m_handle.GetId()`.  The raw outputs
of the two matchers are functions of data outside the engine
(`RetrieveAddressFeatures` depends only on the handle and the query params,
both fixed for the whole retrieval; `RetrieveGeometryFeatures` additionally
depends on the current viewport), so they are carried in the bucket as the
fields `m_addressMatcher` and `m_geometryMatcher`.  `addrMatcherRuns` is a
ghost counter of how many times the address matcher ran for this bucket. -/
structure FeatureBucket where
  m_mwmId : Nat
  m_bounds : Rect
  m_addressMatcher : List Nat
  m_geometryMatcher : Rect → List Nat
  m_addressFeatures : List Nat
  m_geometryFeatures : List Nat
  m_intersection : List Nat
  m_intersectsWithViewport : Bool
  m_coveredByViewport : Bool
  m_finished : Bool
  addrMatcherRuns : Nat

/-- A sink invocation `Callback::OnMwmProcessed(id, offsets)`. -/
abbrev SinkCall := Nat × List Nat

/-- The body of the bucket loop of `Retrieval::RetrieveForViewport`
(retrieval.cpp:175-209) for a single bucket: skip covered, finished or
non-intersecting buckets; on first contact run the address matcher and sort
its output; rerun the geometry matcher, sort, and recompute the
intersection; on full coverage mark the bucket covered and finished and
report it if the intersection is non-empty. -/
def processBucket (viewport : Rect) (b : FeatureBucket) :
    FeatureBucket × Option SinkCall :=
  if b.m_coveredByViewport || b.m_finished || !(viewport.isIntersect b.m_bounds) then
    (b, none)
  else
    let b1 :=
      if !b.m_intersectsWithViewport then
        { b with
          m_addressFeatures := sortIds b.m_addressMatcher
          m_intersectsWithViewport := true
          addrMatcherRuns := b.addrMatcherRuns + 1 }
      else b
    let b2 :=
      if !b1.m_coveredByViewport then
        let geom := sortIds (b1.m_geometryMatcher viewport)
        { b1 with
          m_geometryFeatures := geom
          m_intersection := setIntersection b1.m_addressFeatures geom }
      else b1
    if !b2.m_coveredByViewport && viewport.isRectInside b2.m_bounds then
      let b3 := { b2 with m_coveredByViewport := true, m_finished := true }
      (b3, if b3.m_intersection.isEmpty then none
           else some (b3.m_mwmId, b3.m_intersection))
    else (b2, none)

/-- `Retrieval::RetrieveForViewport` (retrieval.cpp:173-210): process every
bucket in order; the sink calls are collected in bucket order. -/
def RetrieveForViewport (viewport : Rect) (buckets : List FeatureBucket) :
    List FeatureBucket × List SinkCall :=
  (buckets.map fun b => (processBucket viewport b).1,
   buckets.filterMap fun b => (processBucket viewport b).2)

/-- `Retrieval::ViewportCoversAllMwms` (retrieval.cpp:212-220). -/
def ViewportCoversAllMwms (buckets : List FeatureBucket) : Bool :=
  buckets.all fun b => b.m_coveredByViewport

/-- `Retrieval::CountRetrievedFeatures` (retrieval.cpp:222-229). -/
def CountRetrievedFeatures (buckets : List FeatureBucket) : Nat :=
  (buckets.map fun b => b.m_intersection.length).sum

/-- The body of the post-loop drain of `Retrieval::Go`
(retrieval.cpp:161-170) for a single bucket: a bucket not yet finished is
marked finished and reported iff its intersection is non-empty. -/
def finalizeBucket (b : FeatureBucket) : FeatureBucket × Option SinkCall :=
  if b.m_finished then (b, none)
  else
    let b1 := { b with m_finished := true }
    (b1, if b1.m_intersection.isEmpty then none
         else some (b1.m_mwmId, b1.m_intersection))

/-- The post-loop drain of `Retrieval::Go` (retrieval.cpp:161-170) over the
whole working set. -/
def finalizeBuckets (buckets : List FeatureBucket) :
    List FeatureBucket × List SinkCall :=
  (buckets.map fun b => (finalizeBucket b).1,
   buckets.filterMap fun b => (finalizeBucket b).2)

/-- The scale clamp at the top of the expansion loop of `Retrieval::Go`
(retrieval.cpp:145-147): `scale = viewportScale`, clamped down to
`GetMaxViewportScale()` when that limit is set and `scale` reaches it.  The
getter is called only under the `IsMaxViewportScaleSet` guard. -/
def clampViewportScale (limits : Limits) (viewportScale : Int) : Option Int :=
  if limits.isMaxViewportScaleSet then
    match limits.getMaxViewportScale with
    | none => none
    | some m => some (if viewportScale ≥ m then m else viewportScale)
  else some viewportScale

/-- The max-viewport-scale exit check of `Retrieval::Go`
(retrieval.cpp:155-156), evaluated on the clamped `scale`. -/
def maxScaleBreak (limits : Limits) (scale : Int) : Option Bool :=
  if limits.isMaxViewportScaleSet then
    match limits.getMaxViewportScale with
    | none => none
    | some m => some (decide (scale ≥ m))
  else some false

/-- The min-num-features exit check of `Retrieval::Go`
(retrieval.cpp:157-158). -/
def minFeaturesBreak (limits : Limits) (buckets : List FeatureBucket) :
    Option Bool :=
  if limits.isMinNumFeaturesSet then
    match limits.getMinNumFeatures with
    | none => none
    | some k => some (decide (CountRetrievedFeatures buckets ≥ k))
  else some false

/-- The outcome of one iteration of the expansion loop of `Retrieval::Go`
(retrieval.cpp:143-158).  `scaleUsed` and `viewportUsed` record the scale
and the viewport this iteration handed to `RetrieveForViewport`; `brk`
records whether one of the three exit checks fired at the end of the
iteration. -/
structure IterOutcome where
  scaleUsed : Int
  viewportUsed : Rect
  buckets : List FeatureBucket
  calls : List SinkCall
  brk : Bool

/-- One iteration of the expansion loop of `Retrieval::Go`
(retrieval.cpp:143-158): clamp the scale, scale the base viewport by the
clamped scale, run the per-viewport pass, then evaluate the three exit
checks in order (full coverage, max viewport scale, min num features). -/
def goIteration (limits : Limits) (base : Rect) (viewportScale : Int)
    (buckets : List FeatureBucket) : Option IterOutcome :=
  match clampViewportScale limits viewportScale with
  | none => none
  | some scale =>
    let viewport := base.scale scale
    let pass := RetrieveForViewport viewport buckets
    if ViewportCoversAllMwms pass.1 then
      some ⟨scale, viewport, pass.1, pass.2, true⟩
    else
      match maxScaleBreak limits scale with
      | none => none
      | some true => some ⟨scale, viewport, pass.1, pass.2, true⟩
      | some false =>
        match minFeaturesBreak limits pass.1 with
        | none => none
        | some true => some ⟨scale, viewport, pass.1, pass.2, true⟩
        | some false => some ⟨scale, viewport, pass.1, pass.2, false⟩

/-- The result of running the expansion loop (and, for `Go`, the post-loop
drain): the final working set, the sink calls in the order they were
issued, whether the loop exited through one of its `break`s (`exited`,
false when the fuel ran out first), and the number of iterations run. -/
structure GoResult where
  buckets : List FeatureBucket
  calls : List SinkCall
  exited : Bool
  iters : Nat

/-- The expansion loop of `Retrieval::Go` (retrieval.cpp:143-159), indexed
by fuel.  `viewportScale` starts at 1 and is multiplied by `mul` (the
embedding of `kViewportScaleMul = sqrt(2.0)`) after every iteration that
does not exit. -/
def goLoop (mul : Int) (limits : Limits) (base : Rect) :
    Nat → Int → List FeatureBucket → Option GoResult
  | 0, _, buckets => some ⟨buckets, [], false, 0⟩
  | fuel + 1, viewportScale, buckets =>
    match goIteration limits base viewportScale buckets with
    | none => none
    | some it =>
      if it.brk then some ⟨it.buckets, it.calls, true, 1⟩
      else
        match goLoop mul limits base fuel (viewportScale * mul) it.buckets with
        | none => none
        | some r => some ⟨r.buckets, it.calls ++ r.calls, r.exited, r.iters + 1⟩

/-- `Retrieval::Go` (retrieval.cpp:139-171): the expansion loop starting at
`viewportScale = 1.0`, followed by the post-loop drain over the buckets not
yet finished. -/
def Go (mul : Int) (limits : Limits) (base : Rect) (fuel : Nat)
    (buckets : List FeatureBucket) : Option GoResult :=
  match goLoop mul limits base fuel 1 buckets with
  | none => none
  | some r =>
    let fin := finalizeBuckets r.buckets
    some ⟨fin.1, r.calls ++ fin.2, r.exited, r.iters⟩

/-- The data of an opened map tile reachable through a live handle:
presence of the two index sections (`SEARCH_INDEX_FILE_TAG`,
`INDEX_FILE_TAG`), the header bounds, and the raw matcher outputs for this
tile under the current query. -/
structure MwmValue where
  hasSearchIndex : Bool
  hasIndex : Bool
  bounds : Rect
  addressMatcher : List Nat
  geometryMatcher : Rect → List Nat

/-- A handle acquired from the registry (`MwmSet::MwmHandle`): tile id,
aliveness, and the value (null when the tile has no value). -/
structure MwmHandle where
  mwmId : Nat
  isAlive : Bool
  value : Option MwmValue

/-- `Retrieval::FeatureBucket::FeatureBucket` (retrieval.cpp:98-108): a
fresh bucket built from a handle — bounds read from the header, all flags
false, all feature sequences empty. -/
def mkFeatureBucket (h : MwmHandle) (v : MwmValue) : FeatureBucket :=
  { m_mwmId := h.mwmId
    m_bounds := v.bounds
    m_addressMatcher := v.addressMatcher
    m_geometryMatcher := v.geometryMatcher
    m_addressFeatures := []
    m_geometryFeatures := []
    m_intersection := []
    m_intersectsWithViewport := false
    m_coveredByViewport := false
    m_finished := false
    addrMatcherRuns := 0 }

/-- The state of a `Retrieval` controller: the captured base viewport and
limits, and the working set of buckets. -/
structure Retrieval where
  m_viewport : Rect
  m_limits : Limits
  m_buckets : List FeatureBucket

/-- `Retrieval::Init` (retrieval.cpp:112-137): capture the inputs, clear
the working set, then walk the registry enumeration and append a fresh
bucket for every handle that is alive and whose value exists and has both
index sections. -/
def Retrieval.init (r : Retrieval) (handles : List MwmHandle)
    (viewport : Rect) (limits : Limits) : Retrieval :=
  let cleared : Retrieval :=
    { m_viewport := viewport, m_limits := limits, m_buckets := [] }
  handles.foldl
    (fun st h =>
      if h.isAlive then
        match h.value with
        | some v =>
          if v.hasSearchIndex && v.hasIndex then
            { st with m_buckets := st.m_buckets ++ [mkFeatureBucket h v] }
          else st
        | none => st
      else st)
    cleared

/-! ### Per-bucket trajectories

`RetrieveForViewport` acts on each bucket independently, so a whole run of
the expansion loop factors through the per-bucket trajectory below: the
bucket is pushed through the passes for the successive viewports, and the
calls it emits are collected in order.  `bucketGo` additionally applies the
post-loop drain. -/

def bucketRun : List Rect → FeatureBucket → FeatureBucket × List SinkCall
  | [], b => (b, [])
  | v :: vs, b =>
    ((bucketRun vs (processBucket v b).1).1,
     (processBucket v b).2.toList ++ (bucketRun vs (processBucket v b).1).2)

def bucketGo (vps : List Rect) (b : FeatureBucket) :
    FeatureBucket × List SinkCall :=
  ((finalizeBucket (bucketRun vps b).1).1,
   (bucketRun vps b).2 ++ (finalizeBucket (bucketRun vps b).1).2.toList)

/-- The value the scale clamp of `Go` produces (the getter assertion cannot
fire because the getter is guarded, see `clampViewportScale_isSome`). -/
def clampTotal (limits : Limits) (vs : Int) : Int :=
  if limits.m_maxViewportScaleSet = true then
    (if vs ≥ limits.m_maxViewportScale then limits.m_maxViewportScale else vs)
  else vs

/-- The disjunction of the three exit checks of the expansion loop, as they
evaluate on a working set the per-viewport pass leaves unchanged. -/
def BreakCond (limits : Limits) (buckets : List FeatureBucket) (vs : Int) : Prop :=
  ViewportCoversAllMwms buckets = true ∨
  (limits.m_maxViewportScaleSet = true ∧
    clampTotal limits vs ≥ limits.m_maxViewportScale) ∨
  (limits.m_minNumFeaturesSet = true ∧
    CountRetrievedFeatures buckets ≥ limits.m_minNumFeatures)

/-- The state of a bucket as `Init` constructs it. -/
def FreshBucket (b : FeatureBucket) : Prop :=
  b.m_addressFeatures = [] ∧ b.m_geometryFeatures = [] ∧
  b.m_intersection = [] ∧ b.m_intersectsWithViewport = false ∧
  b.m_coveredByViewport = false ∧ b.m_finished = false ∧
  b.addrMatcherRuns = 0

/-- Invariant maintained by every step of the retrieval: the address
matcher has run exactly once iff first contact happened, its sorted output
is cached in `m_addressFeatures`, and the intersection is either still
empty or the set intersection of the sorted matcher outputs for some
viewport. -/
def BucketInv (b : FeatureBucket) : Prop :=
  (b.m_intersectsWithViewport = true →
    b.m_addressFeatures = sortIds b.m_addressMatcher ∧ b.addrMatcherRuns = 1) ∧
  (b.m_intersectsWithViewport = false →
    b.m_addressFeatures = [] ∧ b.addrMatcherRuns = 0) ∧
  (b.m_intersection = [] ∨
    ∃ gv : Rect, b.m_intersection =
      setIntersection (sortIds b.m_addressMatcher)
        (sortIds (b.m_geometryMatcher gv)))

/-- Number of sink calls carrying the tile id `x`. -/
def countId (x : Nat) (calls : List SinkCall) : Nat :=
  calls.countP (fun c => decide (c.1 = x))


/-! ### Step lemmas for the per-bucket pass body -/

theorem processBucket_of_finished (v : Rect) (b : FeatureBucket)
    (h : b.m_finished = true) : processBucket v b = (b, none) := by
  unfold processBucket
  simp [h]

theorem processBucket_fixed_fields (v : Rect) (b : FeatureBucket) :
    (processBucket v b).1.m_mwmId = b.m_mwmId ∧
    (processBucket v b).1.m_bounds = b.m_bounds ∧
    (processBucket v b).1.m_addressMatcher = b.m_addressMatcher ∧
    (processBucket v b).1.m_geometryMatcher = b.m_geometryMatcher := by
  unfold processBucket
  split
  · exact ⟨rfl, rfl, rfl, rfl⟩
  · dsimp only
    split <;> split <;> split <;> exact ⟨rfl, rfl, rfl, rfl⟩

theorem processBucket_finished_mono (v : Rect) (b : FeatureBucket)
    (h : b.m_finished = true) : (processBucket v b).1.m_finished = true := by
  rw [processBucket_of_finished v b h]
  exact h

theorem processBucket_skip (v : Rect) (b : FeatureBucket)
    (h : (b.m_coveredByViewport || b.m_finished || !(v.isIntersect b.m_bounds)) = true) :
    processBucket v b = (b, none) := by
  unfold processBucket
  rw [if_pos h]

theorem processBucket_nonskip (v : Rect) (b : FeatureBucket)
    (hc : b.m_coveredByViewport = false) (hf : b.m_finished = false)
    (hi : v.isIntersect b.m_bounds = true) :
    processBucket v b =
      (let b1 :=
        if b.m_intersectsWithViewport = true then b else
          { b with
            m_addressFeatures := sortIds b.m_addressMatcher
            m_intersectsWithViewport := true
            addrMatcherRuns := b.addrMatcherRuns + 1 }
       let geom := sortIds (b1.m_geometryMatcher v)
       let b2 := { b1 with
         m_geometryFeatures := geom
         m_intersection := setIntersection b1.m_addressFeatures geom }
       if v.isRectInside b2.m_bounds = true then
         let b3 := { b2 with m_coveredByViewport := true, m_finished := true }
         (b3, if b3.m_intersection.isEmpty then none
              else some (b3.m_mwmId, b3.m_intersection))
       else (b2, none)) := by
  cases hb : b.m_intersectsWithViewport <;>
    simp [processBucket, hc, hf, hi, hb]

theorem processBucket_cases (v : Rect) (b : FeatureBucket) :
    ((processBucket v b).1.m_finished = b.m_finished ∧ (processBucket v b).2 = none) ∨
    (b.m_finished = false ∧ (processBucket v b).1.m_finished = true ∧
      (processBucket v b).2 =
        (if (processBucket v b).1.m_intersection.isEmpty then none
         else some ((processBucket v b).1.m_mwmId, (processBucket v b).1.m_intersection))) := by
  by_cases hsk : (b.m_coveredByViewport || b.m_finished || !(v.isIntersect b.m_bounds)) = true
  · rw [processBucket_skip v b hsk]
    exact Or.inl ⟨rfl, rfl⟩
  · have hcv : b.m_coveredByViewport = false := by
      cases h : b.m_coveredByViewport
      · rfl
      · exact absurd (by simp [h]) hsk
    have hfin : b.m_finished = false := by
      cases h : b.m_finished
      · rfl
      · exact absurd (by simp [h]) hsk
    have hint : v.isIntersect b.m_bounds = true := by
      cases h : v.isIntersect b.m_bounds
      · exact absurd (by simp [h, hcv, hfin]) hsk
      · rfl
    cases hb : b.m_intersectsWithViewport
    · by_cases hr : v.isRectInside b.m_bounds = true
      · refine Or.inr ⟨hfin, ?_, ?_⟩ <;> simp [processBucket, hcv, hfin, hint, hb, hr]
      · refine Or.inl ⟨?_, ?_⟩ <;> simp [processBucket, hcv, hfin, hint, hb, hr]
    · by_cases hr : v.isRectInside b.m_bounds = true
      · refine Or.inr ⟨hfin, ?_, ?_⟩ <;> simp [processBucket, hcv, hfin, hint, hb, hr]
      · refine Or.inl ⟨?_, ?_⟩ <;> simp [processBucket, hcv, hfin, hint, hb, hr]

theorem processBucket_none_of_not_finished (v : Rect) (b : FeatureBucket)
    (h : (processBucket v b).1.m_finished = false) : (processBucket v b).2 = none := by
  rcases processBucket_cases v b with ⟨_, h2⟩ | ⟨_, h1, _⟩
  · exact h2
  · rw [h1] at h
    exact absurd h (by simp)

theorem finalizeBucket_of_finished (b : FeatureBucket)
    (h : b.m_finished = true) : finalizeBucket b = (b, none) := by
  unfold finalizeBucket
  rw [if_pos h]

theorem finalizeBucket_of_not_finished (b : FeatureBucket)
    (h : b.m_finished = false) :
    finalizeBucket b = ({ b with m_finished := true },
      if b.m_intersection.isEmpty then none
      else some (b.m_mwmId, b.m_intersection)) := by
  unfold finalizeBucket
  rw [if_neg (by simp [h])]

theorem finalizeBucket_finished (b : FeatureBucket) :
    (finalizeBucket b).1.m_finished = true := by
  cases h : b.m_finished
  · rw [finalizeBucket_of_not_finished b h]
  · rw [finalizeBucket_of_finished b h]
    exact h

theorem finalizeBucket_fixed_fields (b : FeatureBucket) :
    (finalizeBucket b).1.m_mwmId = b.m_mwmId ∧
    (finalizeBucket b).1.m_bounds = b.m_bounds ∧
    (finalizeBucket b).1.m_addressMatcher = b.m_addressMatcher ∧
    (finalizeBucket b).1.m_geometryMatcher = b.m_geometryMatcher ∧
    (finalizeBucket b).1.m_addressFeatures = b.m_addressFeatures ∧
    (finalizeBucket b).1.m_geometryFeatures = b.m_geometryFeatures ∧
    (finalizeBucket b).1.m_intersection = b.m_intersection ∧
    (finalizeBucket b).1.m_intersectsWithViewport = b.m_intersectsWithViewport ∧
    (finalizeBucket b).1.m_coveredByViewport = b.m_coveredByViewport ∧
    (finalizeBucket b).1.addrMatcherRuns = b.addrMatcherRuns := by
  cases h : b.m_finished
  · rw [finalizeBucket_of_not_finished b h]
    exact ⟨rfl, rfl, rfl, rfl, rfl, rfl, rfl, rfl, rfl, rfl⟩
  · rw [finalizeBucket_of_finished b h]
    exact ⟨rfl, rfl, rfl, rfl, rfl, rfl, rfl, rfl, rfl, rfl⟩

theorem finalizeBucket_call (b : FeatureBucket) :
    (finalizeBucket b).2 =
      if b.m_finished then none
      else if b.m_intersection.isEmpty then none
      else some (b.m_mwmId, b.m_intersection) := by
  cases h : b.m_finished
  · rw [finalizeBucket_of_not_finished b h]
    simp
  · rw [finalizeBucket_of_finished b h]
    simp

theorem bucketRun_of_finished (vps : List Rect) (b : FeatureBucket)
    (h : b.m_finished = true) : bucketRun vps b = (b, []) := by
  induction vps with
  | nil => rfl
  | cons v vs ih =>
    unfold bucketRun
    rw [processBucket_of_finished v b h]
    rw [ih]
    rfl

theorem bucketRun_fixed_fields (vps : List Rect) (b : FeatureBucket) :
    (bucketRun vps b).1.m_mwmId = b.m_mwmId ∧
    (bucketRun vps b).1.m_bounds = b.m_bounds ∧
    (bucketRun vps b).1.m_addressMatcher = b.m_addressMatcher ∧
    (bucketRun vps b).1.m_geometryMatcher = b.m_geometryMatcher := by
  induction vps generalizing b with
  | nil => exact ⟨rfl, rfl, rfl, rfl⟩
  | cons v vs ih =>
    have hp := processBucket_fixed_fields v b
    have hr := ih (processBucket v b).1
    unfold bucketRun
    exact ⟨hr.1.trans hp.1, hr.2.1.trans hp.2.1, hr.2.2.1.trans hp.2.2.1,
      hr.2.2.2.trans hp.2.2.2⟩

theorem bucketRun_finished_mono (vps : List Rect) (b : FeatureBucket)
    (h : b.m_finished = true) : (bucketRun vps b).1.m_finished = true := by
  rw [bucketRun_of_finished vps b h]
  exact h

theorem bucketRun_calls (vps : List Rect) (b : FeatureBucket)
    (h : b.m_finished = false) :
    ((bucketRun vps b).1.m_finished = true →
      (bucketRun vps b).2 =
        (if (bucketRun vps b).1.m_intersection.isEmpty then []
         else [((bucketRun vps b).1.m_mwmId, (bucketRun vps b).1.m_intersection)])) ∧
    ((bucketRun vps b).1.m_finished = false → (bucketRun vps b).2 = []) := by
  induction vps generalizing b with
  | nil =>
    constructor
    · intro hfin
      simp only [bucketRun] at hfin
      rw [h] at hfin
      exact absurd hfin (by simp)
    · intro _
      rfl
  | cons v vs ih =>
    rcases processBucket_cases v b with ⟨h1, h2⟩ | ⟨_, h1, h2⟩
    · rw [h] at h1
      have := ih (processBucket v b).1 h1
      constructor
      · intro hfin
        unfold bucketRun at hfin ⊢
        rw [h2, this.1 hfin]
        rfl
      · intro hfin
        unfold bucketRun at hfin ⊢
        rw [h2, this.2 hfin]
        rfl
    · have hrest := bucketRun_of_finished vs (processBucket v b).1 h1
      constructor
      · intro _
        unfold bucketRun
        rw [hrest, h2]
        cases hie : (processBucket v b).1.m_intersection.isEmpty <;> simp [hie]
      · intro hfin
        unfold bucketRun at hfin
        rw [hrest] at hfin
        rw [h1] at hfin
        exact absurd hfin (by simp)

theorem bucketGo_finished (vps : List Rect) (b : FeatureBucket) :
    (bucketGo vps b).1.m_finished = true :=
  finalizeBucket_finished (bucketRun vps b).1

theorem bucketGo_of_finished (vps : List Rect) (b : FeatureBucket)
    (h : b.m_finished = true) : bucketGo vps b = (b, []) := by
  unfold bucketGo
  rw [bucketRun_of_finished vps b h, finalizeBucket_of_finished b h]
  rfl

theorem bucketGo_fixed_fields (vps : List Rect) (b : FeatureBucket) :
    (bucketGo vps b).1.m_mwmId = b.m_mwmId ∧
    (bucketGo vps b).1.m_bounds = b.m_bounds ∧
    (bucketGo vps b).1.m_addressMatcher = b.m_addressMatcher ∧
    (bucketGo vps b).1.m_geometryMatcher = b.m_geometryMatcher := by
  have hf := finalizeBucket_fixed_fields (bucketRun vps b).1
  have hr := bucketRun_fixed_fields vps b
  exact ⟨hf.1.trans hr.1, hf.2.1.trans hr.2.1, hf.2.2.1.trans hr.2.2.1,
    hf.2.2.2.1.trans hr.2.2.2⟩

theorem bucketGo_calls (vps : List Rect) (b : FeatureBucket)
    (h : b.m_finished = false) :
    (bucketGo vps b).2 =
      (if (bucketGo vps b).1.m_intersection.isEmpty then []
       else [((bucketGo vps b).1.m_mwmId, (bucketGo vps b).1.m_intersection)]) := by
  have hfix := finalizeBucket_fixed_fields (bucketRun vps b).1
  cases hfin : (bucketRun vps b).1.m_finished
  · have hcl := (bucketRun_calls vps b h).2 hfin
    unfold bucketGo
    rw [hcl, finalizeBucket_of_not_finished (bucketRun vps b).1 hfin]
    cases hie : (bucketRun vps b).1.m_intersection.isEmpty <;> simp [hie]
  · have hcl := (bucketRun_calls vps b h).1 hfin
    unfold bucketGo
    rw [finalizeBucket_of_finished (bucketRun vps b).1 hfin, hcl]
    cases hie : (bucketRun vps b).1.m_intersection.isEmpty <;> simp [hie]

/-! ### List helpers and the bridge from the loop to per-bucket trajectories -/

theorem filterMap_eq_flatten_toList {α β : Type} (f : α → Option β) (l : List α) :
    l.filterMap f = (l.map fun x => (f x).toList).flatten := by
  induction l with
  | nil => rfl
  | cons a l ih =>
    cases h : f a <;> simp [List.filterMap_cons, h, ih]

theorem flatten_map_append_perm {α β : Type} (f g : α → List β) (l : List α) :
    ((l.map fun x => f x ++ g x).flatten).Perm
      ((l.map f).flatten ++ (l.map g).flatten) := by
  induction l with
  | nil => simp
  | cons a l ih =>
    simp only [List.map_cons, List.flatten_cons, List.append_assoc]
    refine List.Perm.append_left (f a) ?_
    refine (ih.append_left (g a)).trans ?_
    refine (List.perm_append_comm).trans ?_
    refine (List.Perm.of_eq (List.append_assoc _ _ _)).trans ?_
    exact (List.perm_append_comm).append_left _

theorem goIteration_spec (limits : Limits) (base : Rect) (vs : Int)
    (buckets : List FeatureBucket) (it : IterOutcome)
    (h : goIteration limits base vs buckets = some it) :
    clampViewportScale limits vs = some it.scaleUsed ∧
    it.viewportUsed = base.scale it.scaleUsed ∧
    it.buckets = buckets.map (fun b => (processBucket it.viewportUsed b).1) ∧
    it.calls = buckets.filterMap (fun b => (processBucket it.viewportUsed b).2) := by
  unfold goIteration at h
  cases hcl : clampViewportScale limits vs with
  | none => rw [hcl] at h; exact absurd h (by simp)
  | some scale =>
    rw [hcl] at h
    dsimp only [RetrieveForViewport] at h
    split at h
    · cases h
      exact ⟨rfl, rfl, rfl, rfl⟩
    · split at h
      · exact absurd h (by simp)
      · cases h
        exact ⟨rfl, rfl, rfl, rfl⟩
      · split at h
        · exact absurd h (by simp)
        · cases h
          exact ⟨rfl, rfl, rfl, rfl⟩
        · cases h
          exact ⟨rfl, rfl, rfl, rfl⟩

theorem goLoop_bridge (mul : Int) (limits : Limits) (base : Rect) :
    ∀ (fuel : Nat) (vs : Int) (buckets : List FeatureBucket) (r : GoResult),
    goLoop mul limits base fuel vs buckets = some r →
    ∃ vps : List Rect,
      r.buckets = buckets.map (fun b => (bucketRun vps b).1) ∧
      r.calls.Perm (buckets.map (fun b => (bucketRun vps b).2)).flatten := by
  intro fuel
  induction fuel with
  | zero =>
    intro vs buckets r h
    cases h
    refine ⟨[], ?_, ?_⟩
    · simp [bucketRun]
    · simp [bucketRun]
  | succ fuel ih =>
    intro vs buckets r h
    unfold goLoop at h
    cases hit : goIteration limits base vs buckets with
    | none => rw [hit] at h; exact absurd h (by simp)
    | some it =>
      rw [hit] at h
      dsimp only at h
      obtain ⟨-, -, hbk, hcl⟩ := goIteration_spec limits base vs buckets it hit
      by_cases hbrk : it.brk = true
      · rw [if_pos hbrk] at h
        cases h
        refine ⟨[it.viewportUsed], ?_, ?_⟩
        · rw [hbk]
          simp [bucketRun]
        · rw [hcl, filterMap_eq_flatten_toList]
          simp [bucketRun]
      · rw [if_neg hbrk] at h
        cases hrec : goLoop mul limits base fuel (vs * mul) it.buckets with
        | none => rw [hrec] at h; exact absurd h (by simp)
        | some r2 =>
          rw [hrec] at h
          cases h
          obtain ⟨vps, hb2, hc2⟩ := ih (vs * mul) it.buckets r2 hrec
          refine ⟨it.viewportUsed :: vps, ?_, ?_⟩
          · dsimp only
            rw [hb2, hbk, List.map_map]
            simp [bucketRun, Function.comp]
          · dsimp only
            have h1 : it.calls = buckets.filterMap fun b => (processBucket it.viewportUsed b).2 := hcl
            have hc2' : r2.calls.Perm
                (buckets.map fun b => (bucketRun vps (processBucket it.viewportUsed b).1).2).flatten := by
              rw [hbk, List.map_map] at hc2
              exact hc2
            rw [h1, filterMap_eq_flatten_toList]
            have hperm := List.Perm.append
              (List.Perm.refl ((buckets.map fun b => ((processBucket it.viewportUsed b).2).toList).flatten))
              hc2'
            refine hperm.trans ?_
            refine ((flatten_map_append_perm
              (fun b => ((processBucket it.viewportUsed b).2).toList)
              (fun b => (bucketRun vps (processBucket it.viewportUsed b).1).2)
              buckets).symm).trans ?_
            exact List.Perm.of_eq rfl

theorem Go_bridge (mul : Int) (limits : Limits) (base : Rect) (fuel : Nat)
    (buckets : List FeatureBucket) (r : GoResult)
    (h : Go mul limits base fuel buckets = some r) :
    ∃ vps : List Rect,
      r.buckets = buckets.map (fun b => (bucketGo vps b).1) ∧
      r.calls.Perm (buckets.map (fun b => (bucketGo vps b).2)).flatten := by
  unfold Go at h
  cases hlp : goLoop mul limits base fuel 1 buckets with
  | none => rw [hlp] at h; exact absurd h (by simp)
  | some lr =>
    rw [hlp] at h
    dsimp only at h
    cases h
    obtain ⟨vps, hb, hc⟩ := goLoop_bridge mul limits base fuel 1 buckets lr hlp
    refine ⟨vps, ?_, ?_⟩
    · dsimp only [finalizeBuckets]
      rw [hb, List.map_map]
      rfl
    · dsimp only [finalizeBuckets]
      rw [hb, filterMap_eq_flatten_toList, List.map_map]
      have hperm := List.Perm.append hc
        (List.Perm.refl ((buckets.map
          ((fun x => ((finalizeBucket x).2).toList) ∘ fun b => (bucketRun vps b).1)).flatten))
      refine hperm.trans ?_
      refine ((flatten_map_append_perm
        (fun b => (bucketRun vps b).2)
        (fun b => ((finalizeBucket (bucketRun vps b).1).2).toList)
        buckets).symm).trans ?_
      exact List.Perm.of_eq rfl

/-! ### The guarded limit getters never fail inside the loop -/

theorem clampViewportScale_isSome (limits : Limits) (vs : Int) :
    (clampViewportScale limits vs).isSome = true := by
  unfold clampViewportScale Limits.isMaxViewportScaleSet Limits.getMaxViewportScale
  by_cases h : limits.m_maxViewportScaleSet = true <;> simp [h]

theorem maxScaleBreak_isSome (limits : Limits) (s : Int) :
    (maxScaleBreak limits s).isSome = true := by
  unfold maxScaleBreak Limits.isMaxViewportScaleSet Limits.getMaxViewportScale
  by_cases h : limits.m_maxViewportScaleSet = true <;> simp [h]

theorem minFeaturesBreak_isSome (limits : Limits) (buckets : List FeatureBucket) :
    (minFeaturesBreak limits buckets).isSome = true := by
  unfold minFeaturesBreak Limits.isMinNumFeaturesSet Limits.getMinNumFeatures
  by_cases h : limits.m_minNumFeaturesSet = true <;> simp [h]

theorem goIteration_isSome (limits : Limits) (base : Rect) (vs : Int)
    (buckets : List FeatureBucket) :
    (goIteration limits base vs buckets).isSome = true := by
  obtain ⟨s, hs⟩ := Option.isSome_iff_exists.mp (clampViewportScale_isSome limits vs)
  unfold goIteration
  rw [hs]
  dsimp only
  split
  · rfl
  · obtain ⟨mb, hmb⟩ := Option.isSome_iff_exists.mp (maxScaleBreak_isSome limits s)
    rw [hmb]
    cases mb
    · obtain ⟨nb, hnb⟩ := Option.isSome_iff_exists.mp
        (minFeaturesBreak_isSome limits
          (RetrieveForViewport (base.scale s) buckets).1)
      rw [hnb]
      cases nb <;> rfl
    · rfl

theorem goLoop_isSome (mul : Int) (limits : Limits) (base : Rect) :
    ∀ (fuel : Nat) (vs : Int) (buckets : List FeatureBucket),
    (goLoop mul limits base fuel vs buckets).isSome = true := by
  intro fuel
  induction fuel with
  | zero => intro vs buckets; rfl
  | succ fuel ih =>
    intro vs buckets
    obtain ⟨it, hit⟩ := Option.isSome_iff_exists.mp
      (goIteration_isSome limits base vs buckets)
    unfold goLoop
    rw [hit]
    dsimp only
    split
    · rfl
    · obtain ⟨r2, hr2⟩ := Option.isSome_iff_exists.mp
        (ih (vs * mul) it.buckets)
      rw [hr2]
      rfl

theorem Go_isSome (mul : Int) (limits : Limits) (base : Rect) (fuel : Nat)
    (buckets : List FeatureBucket) :
    (Go mul limits base fuel buckets).isSome = true := by
  obtain ⟨lr, hlr⟩ := Option.isSome_iff_exists.mp
    (goLoop_isSome mul limits base fuel 1 buckets)
  unfold Go
  rw [hlr]
  rfl

/-! ### Which break the loop exited through -/

theorem goIteration_brk_cause (limits : Limits) (base : Rect) (vs : Int)
    (buckets : List FeatureBucket) (it : IterOutcome)
    (h : goIteration limits base vs buckets = some it) (hbrk : it.brk = true) :
    ViewportCoversAllMwms it.buckets = true ∨
    limits.m_maxViewportScaleSet = true ∨
    (limits.m_minNumFeaturesSet = true ∧
      CountRetrievedFeatures it.buckets ≥ limits.m_minNumFeatures) := by
  unfold goIteration at h
  cases hcl : clampViewportScale limits vs with
  | none => rw [hcl] at h; exact absurd h (by simp)
  | some scale =>
    rw [hcl] at h
    dsimp only at h
    split at h
    · rename_i hcov
      cases h
      exact Or.inl hcov
    · rename_i hcov
      cases hmx : maxScaleBreak limits scale with
      | none => rw [hmx] at h; exact absurd h (by simp)
      | some mb =>
        rw [hmx] at h
        cases mb with
        | true =>
          refine Or.inr (Or.inl ?_)
          unfold maxScaleBreak Limits.isMaxViewportScaleSet at hmx
          by_cases hset : limits.m_maxViewportScaleSet = true
          · exact hset
          · rw [if_neg hset] at hmx
            exact absurd (Option.some.injEq _ _ ▸ hmx) (by simp)
        | false =>
          dsimp only at h
          cases hmn : minFeaturesBreak limits
              (RetrieveForViewport (base.scale scale) buckets).1 with
          | none => rw [hmn] at h; exact absurd h (by simp)
          | some nb =>
            rw [hmn] at h
            cases nb with
            | true =>
              cases h
              refine Or.inr (Or.inr ?_)
              unfold minFeaturesBreak Limits.isMinNumFeaturesSet
                Limits.getMinNumFeatures at hmn
              by_cases hset : limits.m_minNumFeaturesSet = true
              · rw [if_pos hset, if_pos hset] at hmn
                refine ⟨hset, ?_⟩
                have := Option.some.inj hmn
                exact of_decide_eq_true this
              · rw [if_neg hset] at hmn
                exact absurd (Option.some.inj hmn) (by simp)
            | false =>
              cases h
              exact absurd hbrk (by simp)

theorem goLoop_exit_cause (mul : Int) (limits : Limits) (base : Rect) :
    ∀ (fuel : Nat) (vs : Int) (buckets : List FeatureBucket) (r : GoResult),
    goLoop mul limits base fuel vs buckets = some r → r.exited = true →
    ViewportCoversAllMwms r.buckets = true ∨
    limits.m_maxViewportScaleSet = true ∨
    (limits.m_minNumFeaturesSet = true ∧
      CountRetrievedFeatures r.buckets ≥ limits.m_minNumFeatures) := by
  intro fuel
  induction fuel with
  | zero =>
    intro vs buckets r h hex
    cases h
    exact absurd hex (by simp)
  | succ fuel ih =>
    intro vs buckets r h hex
    unfold goLoop at h
    cases hit : goIteration limits base vs buckets with
    | none => rw [hit] at h; exact absurd h (by simp)
    | some it =>
      rw [hit] at h
      dsimp only at h
      by_cases hbrk : it.brk = true
      · rw [if_pos hbrk] at h
        cases h
        exact goIteration_brk_cause limits base vs buckets it hit hbrk
      · rw [if_neg hbrk] at h
        cases hrec : goLoop mul limits base fuel (vs * mul) it.buckets with
        | none => rw [hrec] at h; exact absurd h (by simp)
        | some r2 =>
          rw [hrec] at h
          cases h
          exact ih (vs * mul) it.buckets r2 hrec hex

theorem finalizeBuckets_covered (bs : List FeatureBucket) :
    ViewportCoversAllMwms (finalizeBuckets bs).1 = ViewportCoversAllMwms bs := by
  induction bs with
  | nil => rfl
  | cons b bs ih =>
    have hf := (finalizeBucket_fixed_fields b).2.2.2.2.2.2.2.2.1
    simp only [ViewportCoversAllMwms, finalizeBuckets, List.map_cons, List.all_cons] at *
    rw [hf, ih]

theorem finalizeBuckets_count (bs : List FeatureBucket) :
    CountRetrievedFeatures (finalizeBuckets bs).1 = CountRetrievedFeatures bs := by
  induction bs with
  | nil => rfl
  | cons b bs ih =>
    have hf := (finalizeBucket_fixed_fields b).2.2.2.2.2.2.1
    simp only [CountRetrievedFeatures, finalizeBuckets, List.map_cons, List.sum_cons] at *
    rw [hf, ih]

theorem Go_exit_cause (mul : Int) (limits : Limits) (base : Rect) (fuel : Nat)
    (buckets : List FeatureBucket) (r : GoResult)
    (h : Go mul limits base fuel buckets = some r) (hex : r.exited = true) :
    ViewportCoversAllMwms r.buckets = true ∨
    limits.m_maxViewportScaleSet = true ∨
    (limits.m_minNumFeaturesSet = true ∧
      CountRetrievedFeatures r.buckets ≥ limits.m_minNumFeatures) := by
  unfold Go at h
  cases hlp : goLoop mul limits base fuel 1 buckets with
  | none => rw [hlp] at h; exact absurd h (by simp)
  | some lr =>
    rw [hlp] at h
    dsimp only at h
    cases h
    have hc := goLoop_exit_cause mul limits base fuel 1 buckets lr hlp hex
    rw [← finalizeBuckets_covered lr.buckets, ← finalizeBuckets_count lr.buckets] at hc
    exact hc

theorem Go_all_finished (mul : Int) (limits : Limits) (base : Rect) (fuel : Nat)
    (buckets : List FeatureBucket) (r : GoResult)
    (h : Go mul limits base fuel buckets = some r) :
    ∀ b ∈ r.buckets, b.m_finished = true := by
  unfold Go at h
  cases hlp : goLoop mul limits base fuel 1 buckets with
  | none => rw [hlp] at h; exact absurd h (by simp)
  | some lr =>
    rw [hlp] at h
    dsimp only at h
    cases h
    intro b hb
    dsimp only [finalizeBuckets] at hb
    obtain ⟨a, -, ha⟩ := List.mem_map.mp hb
    rw [← ha]
    exact finalizeBucket_finished a

/-! ### Runs over a working set whose buckets are all finished -/

theorem clampViewportScale_eq_total (limits : Limits) (vs : Int) :
    clampViewportScale limits vs = some (clampTotal limits vs) := by
  unfold clampViewportScale clampTotal Limits.isMaxViewportScaleSet
    Limits.getMaxViewportScale
  by_cases h : limits.m_maxViewportScaleSet = true <;> simp [h]

theorem RetrieveForViewport_of_all_finished (v : Rect)
    (bs : List FeatureBucket) (h : ∀ b ∈ bs, b.m_finished = true) :
    RetrieveForViewport v bs = (bs, []) := by
  induction bs with
  | nil => rfl
  | cons b bs ih =>
    have hb := processBucket_of_finished v b (h b (List.mem_cons_self b bs))
    have ih2 := ih fun x hx => h x (List.mem_cons_of_mem b hx)
    simp only [RetrieveForViewport, List.map_cons, List.filterMap_cons] at ih2 ⊢
    rw [hb]
    simp only [Prod.mk.injEq, List.cons.injEq, true_and] at ih2 ⊢
    exact ih2

theorem finalizeBuckets_of_all_finished (bs : List FeatureBucket)
    (h : ∀ b ∈ bs, b.m_finished = true) :
    finalizeBuckets bs = (bs, []) := by
  induction bs with
  | nil => rfl
  | cons b bs ih =>
    have hb := finalizeBucket_of_finished b (h b (List.mem_cons_self b bs))
    have ih2 := ih fun x hx => h x (List.mem_cons_of_mem b hx)
    simp only [finalizeBuckets, List.map_cons, List.filterMap_cons] at ih2 ⊢
    rw [hb]
    simp only [Prod.mk.injEq, List.cons.injEq, true_and] at ih2 ⊢
    exact ih2

theorem goIteration_of_all_finished (limits : Limits) (base : Rect) (vs : Int)
    (bs : List FeatureBucket) (h : ∀ b ∈ bs, b.m_finished = true) :
    ∃ brkb : Bool,
      goIteration limits base vs bs =
        some ⟨clampTotal limits vs, base.scale (clampTotal limits vs), bs, [], brkb⟩ ∧
      (brkb = true ↔ BreakCond limits bs vs) := by
  unfold goIteration
  rw [clampViewportScale_eq_total]
  dsimp only
  rw [RetrieveForViewport_of_all_finished (base.scale (clampTotal limits vs)) bs h]
  by_cases hcov : ViewportCoversAllMwms bs = true
  · refine ⟨true, ?_, ?_⟩
    · rw [if_pos hcov]
    · simp [BreakCond, hcov]
  · rw [if_neg hcov]
    by_cases hset : limits.m_maxViewportScaleSet = true
    · by_cases hge : clampTotal limits vs ≥ limits.m_maxViewportScale
      · refine ⟨true, ?_, ?_⟩
        · unfold maxScaleBreak Limits.isMaxViewportScaleSet Limits.getMaxViewportScale
          rw [if_pos hset, if_pos hset]
          dsimp only
          rw [decide_eq_true hge]
        · simp [BreakCond, hset, hge]
      · unfold maxScaleBreak Limits.isMaxViewportScaleSet Limits.getMaxViewportScale
        rw [if_pos hset, if_pos hset]
        dsimp only
        rw [decide_eq_false hge]
        dsimp only
        by_cases hmin : limits.m_minNumFeaturesSet = true
        · by_cases hcnt : CountRetrievedFeatures bs ≥ limits.m_minNumFeatures
          · refine ⟨true, ?_, ?_⟩
            · unfold minFeaturesBreak Limits.isMinNumFeaturesSet Limits.getMinNumFeatures
              rw [if_pos hmin, if_pos hmin]
              dsimp only
              rw [decide_eq_true hcnt]
            · simp [BreakCond, hmin, hcnt]
          · refine ⟨false, ?_, ?_⟩
            · unfold minFeaturesBreak Limits.isMinNumFeaturesSet Limits.getMinNumFeatures
              rw [if_pos hmin, if_pos hmin]
              dsimp only
              rw [decide_eq_false hcnt]
            · simp [BreakCond, hcov, hge, hcnt]
        · refine ⟨false, ?_, ?_⟩
          · unfold minFeaturesBreak Limits.isMinNumFeaturesSet
            rw [if_neg hmin]
          · simp [BreakCond, hcov, hge, hmin]
    · unfold maxScaleBreak Limits.isMaxViewportScaleSet
      rw [if_neg hset]
      dsimp only
      by_cases hmin : limits.m_minNumFeaturesSet = true
      · by_cases hcnt : CountRetrievedFeatures bs ≥ limits.m_minNumFeatures
        · refine ⟨true, ?_, ?_⟩
          · unfold minFeaturesBreak Limits.isMinNumFeaturesSet Limits.getMinNumFeatures
            rw [if_pos hmin, if_pos hmin]
            dsimp only
            rw [decide_eq_true hcnt]
          · simp [BreakCond, hmin, hcnt]
        · refine ⟨false, ?_, ?_⟩
          · unfold minFeaturesBreak Limits.isMinNumFeaturesSet Limits.getMinNumFeatures
            rw [if_pos hmin, if_pos hmin]
            dsimp only
            rw [decide_eq_false hcnt]
          · simp [BreakCond, hcov, hset, hcnt]
      · refine ⟨false, ?_, ?_⟩
        · unfold minFeaturesBreak Limits.isMinNumFeaturesSet
          rw [if_neg hmin]
        · simp [BreakCond, hcov, hset, hmin]

theorem goLoop_of_all_finished (mul : Int) (limits : Limits) (base : Rect) :
    ∀ (fuel : Nat) (vs : Int) (bs : List FeatureBucket),
    (∀ b ∈ bs, b.m_finished = true) →
    (∃ k, k < fuel ∧ BreakCond limits bs (vs * mul ^ k)) →
    ∃ r : GoResult, goLoop mul limits base fuel vs bs = some r ∧
      r.exited = true ∧ r.calls = [] ∧ r.buckets = bs := by
  intro fuel
  induction fuel with
  | zero =>
    intro vs bs _ ⟨k, hk, _⟩
    exact absurd hk (Nat.not_lt_zero k)
  | succ fuel ih =>
    intro vs bs hfin ⟨k, hk, hbc⟩
    obtain ⟨brkb, hit, hiff⟩ := goIteration_of_all_finished limits base vs bs hfin
    unfold goLoop
    rw [hit]
    dsimp only
    cases hbr : brkb with
    | true =>
      exact ⟨⟨bs, [], true, 1⟩, rfl, rfl, rfl, rfl⟩
    | false =>
      have hnot : ¬BreakCond limits bs vs := by
        intro hb
        rw [← hiff] at hb
        rw [hbr] at hb
        exact absurd hb (by simp)
      cases k with
      | zero =>
        rw [pow_zero, mul_one] at hbc
        exact absurd hbc hnot
      | succ j =>
        have hbc' : BreakCond limits bs ((vs * mul) * mul ^ j) := by
          have : (vs * mul) * mul ^ j = vs * mul ^ (j + 1) := by ring
          rw [this]
          exact hbc
        obtain ⟨r, hr, hex, hcalls, hbuckets⟩ :=
          ih (vs * mul) bs hfin ⟨j, Nat.lt_of_succ_lt_succ hk, hbc'⟩
        rw [hr]
        exact ⟨⟨r.buckets, [] ++ r.calls, r.exited, r.iters + 1⟩, rfl,
          hex, by rw [hcalls]; rfl, hbuckets⟩

theorem Go_of_all_finished (mul : Int) (limits : Limits) (base : Rect)
    (bs : List FeatureBucket) (hfin : ∀ b ∈ bs, b.m_finished = true)
    (hbc : ∃ k, BreakCond limits bs (1 * mul ^ k)) :
    ∃ (fuel : Nat) (r : GoResult), Go mul limits base fuel bs = some r ∧
      r.exited = true ∧ r.calls = [] := by
  obtain ⟨k, hbc⟩ := hbc
  obtain ⟨r, hr, hex, hcalls, hbuckets⟩ :=
    goLoop_of_all_finished mul limits base (k + 1) 1 bs hfin
      ⟨k, Nat.lt_succ_self k, hbc⟩
  refine ⟨k + 1, ⟨r.buckets, r.calls ++ [], r.exited, r.iters⟩, ?_, hex, ?_⟩
  · unfold Go
    rw [hr]
    dsimp only
    rw [hbuckets, finalizeBuckets_of_all_finished bs hfin]
  · rw [hcalls]
    rfl

/-! ### Claim theorems -/

/-- C9: during `Go`, every call to `Limits::GetMaxViewportScale` and
`Limits::GetMinNumFeatures` is guarded by the corresponding is-set check,
so the unset-limit assertion (embedded as the getters returning `none`,
which `Go` would propagate) is unreachable from `Go` regardless of which
limits the caller set: `Go` always returns a result. -/
theorem c9_unset_limit_assertion_unreachable (mul : Int) (limits : Limits)
    (base : Rect) (fuel : Nat) (buckets : List FeatureBucket) :
    (Go mul limits base fuel buckets).isSome = true :=
  Go_isSome mul limits base fuel buckets

/-- C8: if the working set is empty, `Go` exits its loop on the very first
iteration (the all-buckets-covered check holds vacuously) and the sink is
never invoked. -/
theorem c8_empty_working_set (mul : Int) (limits : Limits) (base : Rect)
    (fuel : Nat) (hfuel : 0 < fuel) :
    Go mul limits base fuel [] = some ⟨[], [], true, 1⟩ := by
  obtain ⟨brkb, hit, hiff⟩ :=
    goIteration_of_all_finished limits base 1 [] (by simp)
  have hbrk : brkb = true := hiff.mpr (Or.inl rfl)
  rw [hbrk] at hit
  cases fuel with
  | zero => exact absurd hfuel (by simp)
  | succ fuel =>
    unfold Go goLoop
    rw [hit]
    rfl

/-- C8 witness: the empty run at a concrete input. -/
theorem c8_empty_working_set_witness :
    0 < 1 ∧ Go 2 Limits.default ⟨0, 0, 1, 1⟩ 1 [] = some ⟨[], [], true, 1⟩ :=
  ⟨by decide, c8_empty_working_set 2 Limits.default ⟨0, 0, 1, 1⟩ 1 (by decide)⟩

/-- C1 (counterexample): with `max_viewport_scale` set to 2, an iteration
reached with unclamped `viewport_scale = 4` hands the pass the base
viewport scaled by the clamped scale 2, not by the unclamped 4, and the two
viewports differ — the claim that the unclamped scale is used to build the
pass viewport is false on the code. -/
theorem c1_counterexample :
    (goIteration (Limits.default.setMaxViewportScale 2) ⟨0, 0, 2, 2⟩ 4 []).map
        IterOutcome.viewportUsed =
      some (Rect.scale ⟨0, 0, 2, 2⟩ 2) ∧
    Rect.scale ⟨0, 0, 2, 2⟩ 2 ≠ Rect.scale ⟨0, 0, 2, 2⟩ 4 := by
  constructor
  · rfl
  · decide

/-- C1 (amended): on every iteration of the expansion loop, the viewport
handed to the per-viewport pass is the base viewport scaled by the clamped
scale — the same value that drives the exit decision — so when
`max_viewport_scale` is set, every iteration (the final one included) runs
the pass with the base viewport scaled by at most `max_viewport_scale`. -/
theorem c1_clamped_scale_used_for_pass (limits : Limits) (base : Rect)
    (vs : Int) (buckets : List FeatureBucket) (it : IterOutcome)
    (hset : limits.m_maxViewportScaleSet = true)
    (h : goIteration limits base vs buckets = some it) :
    it.scaleUsed =
      (if vs ≥ limits.m_maxViewportScale then limits.m_maxViewportScale else vs) ∧
    it.viewportUsed = base.scale it.scaleUsed ∧
    it.scaleUsed ≤ limits.m_maxViewportScale := by
  obtain ⟨hcl, hvp, -, -⟩ := goIteration_spec limits base vs buckets it h
  rw [clampViewportScale_eq_total] at hcl
  have hs : it.scaleUsed = clampTotal limits vs := (Option.some.inj hcl).symm
  have hct : clampTotal limits vs =
      (if vs ≥ limits.m_maxViewportScale then limits.m_maxViewportScale else vs) := by
    unfold clampTotal
    rw [if_pos hset]
  refine ⟨hs.trans hct, hvp, ?_⟩
  rw [hs, hct]
  by_cases hge : vs ≥ limits.m_maxViewportScale
  · rw [if_pos hge]
  · rw [if_neg hge]
    omega

/-- C1 witness: the amended statement evaluated at the concrete input of
the counterexample. -/
theorem c1_clamped_scale_used_for_pass_witness :
    (Limits.default.setMaxViewportScale 2).m_maxViewportScaleSet = true ∧
    ((⟨2, ⟨-1, -1, 3, 3⟩, [], [], true⟩ : IterOutcome).scaleUsed =
        (if (4 : Int) ≥ (Limits.default.setMaxViewportScale 2).m_maxViewportScale
         then (Limits.default.setMaxViewportScale 2).m_maxViewportScale else 4) ∧
      (⟨2, ⟨-1, -1, 3, 3⟩, [], [], true⟩ : IterOutcome).viewportUsed =
        Rect.scale ⟨0, 0, 2, 2⟩
          (⟨2, ⟨-1, -1, 3, 3⟩, [], [], true⟩ : IterOutcome).scaleUsed ∧
      (⟨2, ⟨-1, -1, 3, 3⟩, [], [], true⟩ : IterOutcome).scaleUsed ≤
        (Limits.default.setMaxViewportScale 2).m_maxViewportScale) :=
  ⟨rfl, c1_clamped_scale_used_for_pass (Limits.default.setMaxViewportScale 2)
    ⟨0, 0, 2, 2⟩ 4 [] ⟨2, ⟨-1, -1, 3, 3⟩, [], [], true⟩ rfl rfl⟩

/-- C5: after `Go` returns (its loop exited through a `break`), every
bucket in the working set is finished, and a second call to `Go` on the
same state (no intervening `Init`) terminates — its loop exits through a
`break` within some fuel — and invokes the sink zero times. -/
theorem c5_second_run_is_noop (mul : Int) (limits : Limits) (base : Rect)
    (fuel : Nat) (buckets : List FeatureBucket) (r : GoResult)
    (hmul : 1 < mul) (h : Go mul limits base fuel buckets = some r)
    (hex : r.exited = true) :
    (∀ b ∈ r.buckets, b.m_finished = true) ∧
    ∃ (fuel2 : Nat) (r2 : GoResult),
      Go mul limits base fuel2 r.buckets = some r2 ∧
      r2.exited = true ∧ r2.calls = [] := by
  have hfin := Go_all_finished mul limits base fuel buckets r h
  refine ⟨hfin, ?_⟩
  have hcause := Go_exit_cause mul limits base fuel buckets r h hex
  apply Go_of_all_finished mul limits base r.buckets hfin
  rcases hcause with hcov | hset | hmin
  · exact ⟨0, Or.inl hcov⟩
  · obtain ⟨n, hn⟩ := pow_unbounded_of_one_lt (limits.m_maxViewportScale) hmul
    refine ⟨n, Or.inr (Or.inl ⟨hset, ?_⟩)⟩
    rw [one_mul]
    unfold clampTotal
    rw [if_pos hset, if_pos (le_of_lt hn)]
  · exact ⟨0, Or.inr (Or.inr hmin)⟩

/-- C5 witness: the second-run statement evaluated on a concrete retrieval
over the empty working set. -/
theorem c5_second_run_is_noop_witness :
    (1 : Int) < 2 ∧
    ((∀ b ∈ ([] : List FeatureBucket), b.m_finished = true) ∧
     ∃ (fuel2 : Nat) (r2 : GoResult),
       Go 2 Limits.default ⟨0, 0, 1, 1⟩ fuel2 [] = some r2 ∧
       r2.exited = true ∧ r2.calls = []) :=
  ⟨by decide,
   c5_second_run_is_noop 2 Limits.default ⟨0, 0, 1, 1⟩ 1 [] ⟨[], [], true, 1⟩
     (by decide) rfl rfl⟩

theorem goIteration_brk_of_min_zero (limits : Limits) (base : Rect)
    (vs : Int) (bs : List FeatureBucket) (it : IterOutcome)
    (hset : limits.m_minNumFeaturesSet = true)
    (hzero : limits.m_minNumFeatures = 0)
    (h : goIteration limits base vs bs = some it) : it.brk = true := by
  unfold goIteration at h
  cases hcl : clampViewportScale limits vs with
  | none => rw [hcl] at h; exact absurd h (by simp)
  | some scale =>
    rw [hcl] at h
    dsimp only at h
    split at h
    · cases h; rfl
    · cases hmx : maxScaleBreak limits scale with
      | none => rw [hmx] at h; exact absurd h (by simp)
      | some mb =>
        rw [hmx] at h
        cases mb with
        | true => cases h; rfl
        | false =>
          dsimp only at h
          have hmn : minFeaturesBreak limits
              (RetrieveForViewport (base.scale scale) bs).1 = some true := by
            unfold minFeaturesBreak Limits.isMinNumFeaturesSet Limits.getMinNumFeatures
            rw [if_pos hset, if_pos hset]
            dsimp only
            rw [decide_eq_true (by rw [hzero]; exact Nat.zero_le _)]
          rw [hmn] at h
          cases h
          rfl

/-- C4 (amended): with both limits unset, any normal exit of the expansion
loop happens with the scaled viewport covering every admitted tile's
bounds; but if `min_num_features` is set to the value 0 (its is-set flag
true), the loop instead exits at the end of the very first iteration,
because the aggregate feature count is always at least 0. -/
theorem c4_min_zero_exits_first_iteration (mul : Int) (limits : Limits)
    (base : Rect) (fuel : Nat) (buckets : List FeatureBucket) (r : GoResult)
    (hgo : Go mul limits base fuel buckets = some r) :
    (limits.m_minNumFeaturesSet = false → limits.m_maxViewportScaleSet = false →
      r.exited = true → ViewportCoversAllMwms r.buckets = true) ∧
    (limits.m_minNumFeaturesSet = true → limits.m_minNumFeatures = 0 →
      0 < fuel → r.exited = true ∧ r.iters = 1) := by
  constructor
  · intro hminu hmaxu hex
    rcases Go_exit_cause mul limits base fuel buckets r hgo hex with
      hcov | hset | hmin
    · exact hcov
    · rw [hmaxu] at hset
      exact absurd hset (by simp)
    · rw [hminu] at hmin
      exact absurd hmin.1 (by simp)
  · intro hset hzero hfuel
    cases fuel with
    | zero => exact absurd hfuel (by simp)
    | succ fuel =>
      unfold Go at hgo
      cases hlp : goLoop mul limits base (fuel + 1) 1 buckets with
      | none => rw [hlp] at hgo; exact absurd hgo (by simp)
      | some lr =>
        rw [hlp] at hgo
        dsimp only at hgo
        cases hgo
        unfold goLoop at hlp
        cases hit : goIteration limits base 1 buckets with
        | none => rw [hit] at hlp; exact absurd hlp (by simp)
        | some it =>
          rw [hit] at hlp
          dsimp only at hlp
          have hbrk : it.brk = true :=
            goIteration_brk_of_min_zero limits base 1 buckets it hset hzero hit
          rw [if_pos hbrk] at hlp
          cases hlp
          exact ⟨rfl, rfl⟩

/-- C4 (counterexample): with `min_num_features` set to 0 and
`max_viewport_scale` unset, `Go` over one uncovered bucket exits after a
single iteration with the bucket still not covered — the loop does not run
until full coverage. -/
theorem c4_counterexample :
    (Go 2 (Limits.default.setMinNumFeatures 0) ⟨0, 0, 2, 2⟩ 5
        [⟨0, ⟨-10, -10, 10, 10⟩, [], fun _ => [], [], [], [], false, false, false, 0⟩]).map
        (fun r => (r.exited, r.iters, ViewportCoversAllMwms r.buckets)) =
      some (true, 1, false) := rfl

/-- C4 witness: the amended statement evaluated at the counterexample's
concrete input, with every hypothesis discharged. -/
theorem c4_min_zero_exits_first_iteration_witness :
    (⟨[⟨0, ⟨-10, -10, 10, 10⟩, [], fun _ => [], [], [], [],
        true, false, true, 1⟩], [], true, 1⟩ : GoResult).exited = true ∧
    (⟨[⟨0, ⟨-10, -10, 10, 10⟩, [], fun _ => [], [], [], [],
        true, false, true, 1⟩], [], true, 1⟩ : GoResult).iters = 1 :=
  (c4_min_zero_exits_first_iteration 2 (Limits.default.setMinNumFeatures 0)
    ⟨0, 0, 2, 2⟩ 5
    [⟨0, ⟨-10, -10, 10, 10⟩, [], fun _ => [], [], [], [], false, false, false, 0⟩]
    ⟨[⟨0, ⟨-10, -10, 10, 10⟩, [], fun _ => [], [], [], [],
        true, false, true, 1⟩], [], true, 1⟩
    (by rfl)).2 rfl rfl (by decide)

/-- C7: once a bucket's finished flag is true, no subsequent step of the
retrieval mutates any of its fields: a later per-viewport pass returns the
bucket unchanged with no call, the post-loop drain returns it unchanged
with no call, and a whole `Go` run started from a state in which the bucket
is finished leaves the bucket exactly as it was. -/
theorem c7_finished_buckets_never_mutated :
    (∀ (v : Rect) (b : FeatureBucket), b.m_finished = true →
      processBucket v b = (b, none)) ∧
    (∀ b : FeatureBucket, b.m_finished = true → finalizeBucket b = (b, none)) ∧
    (∀ (mul : Int) (limits : Limits) (base : Rect) (fuel : Nat)
       (buckets : List FeatureBucket) (r : GoResult),
      Go mul limits base fuel buckets = some r →
      r.buckets.length = buckets.length ∧
      ∀ (i : Nat) (hi : i < buckets.length) (hi2 : i < r.buckets.length),
        (buckets.get ⟨i, hi⟩).m_finished = true →
        r.buckets.get ⟨i, hi2⟩ = buckets.get ⟨i, hi⟩) := by
  refine ⟨processBucket_of_finished, finalizeBucket_of_finished, ?_⟩
  intro mul limits base fuel buckets r hgo
  obtain ⟨vps, hb, -⟩ := Go_bridge mul limits base fuel buckets r hgo
  constructor
  · rw [hb, List.length_map]
  · intro i hi hi2 hfin
    have : r.buckets.get ⟨i, hi2⟩ =
        (bucketGo vps (buckets.get ⟨i, hi⟩)).1 := by
      have := List.get_of_eq hb ⟨i, hi2⟩
      rw [this, List.get_map]
    rw [this, bucketGo_of_finished vps (buckets.get ⟨i, hi⟩) hfin]

/-- C7 witness: a finished bucket survives a whole `Go` run unchanged. -/
theorem c7_finished_buckets_never_mutated_witness :
    (⟨[⟨0, ⟨0, 0, 1, 1⟩, [], fun _ => [], [], [], [], false, false, true, 0⟩],
      [], false, 1⟩ : GoResult).buckets.get ⟨0, Nat.zero_lt_one⟩ =
    ([⟨0, ⟨0, 0, 1, 1⟩, [], fun _ => [], [], [], [], false, false, true, 0⟩] :
      List FeatureBucket).get ⟨0, Nat.zero_lt_one⟩ :=
  ((c7_finished_buckets_never_mutated.2.2 2 Limits.default ⟨0, 0, 1, 1⟩ 1
    [⟨0, ⟨0, 0, 1, 1⟩, [], fun _ => [], [], [], [], false, false, true, 0⟩]
    ⟨[⟨0, ⟨0, 0, 1, 1⟩, [], fun _ => [], [], [], [], false, false, true, 0⟩],
      [], false, 1⟩ (by rfl)).2 0 Nat.zero_lt_one Nat.zero_lt_one rfl)

/-! ### Bucket invariants: the address matcher runs once, and the
intersection is always an intersection of sorted matcher outputs -/

theorem freshBucket_inv (b : FeatureBucket) (h : FreshBucket b) : BucketInv b := by
  obtain ⟨h1, -, h3, h4, -, -, h7⟩ := h
  refine ⟨?_, ?_, Or.inl h3⟩
  · intro hc
    rw [h4] at hc
    exact absurd hc (by simp)
  · intro _
    exact ⟨h1, h7⟩

theorem processBucket_inv (v : Rect) (b : FeatureBucket) (h : BucketInv b) :
    BucketInv (processBucket v b).1 := by
  by_cases hsk : (b.m_coveredByViewport || b.m_finished || !(v.isIntersect b.m_bounds)) = true
  · rw [processBucket_skip v b hsk]
    exact h
  · have hcv : b.m_coveredByViewport = false := by
      cases hx : b.m_coveredByViewport
      · rfl
      · exact absurd (by simp [hx]) hsk
    have hfin : b.m_finished = false := by
      cases hx : b.m_finished
      · rfl
      · exact absurd (by simp [hx]) hsk
    have hint : v.isIntersect b.m_bounds = true := by
      cases hx : v.isIntersect b.m_bounds
      · exact absurd (by simp [hx, hcv, hfin]) hsk
      · rfl
    rw [processBucket_nonskip v b hcv hfin hint]
    dsimp only
    cases hb : b.m_intersectsWithViewport
    · by_cases hr : v.isRectInside b.m_bounds = true <;>
        · simp only [hb, hcv, if_false, if_true, Bool.false_eq_true]
          refine ⟨?_, ?_, ?_⟩ <;> simp [hr, h.2.1 hb] <;>
            exact Or.inr ⟨v, rfl⟩
    · by_cases hr : v.isRectInside b.m_bounds = true <;>
        · simp only [hb, hcv, if_false, if_true, Bool.false_eq_true]
          refine ⟨?_, ?_, ?_⟩ <;> simp [hr, hb, (h.1 hb).1, (h.1 hb).2] <;>
            exact Or.inr ⟨v, rfl⟩

theorem finalizeBucket_inv (b : FeatureBucket) (h : BucketInv b) :
    BucketInv (finalizeBucket b).1 := by
  cases hf : b.m_finished
  · rw [finalizeBucket_of_not_finished b hf]
    exact h
  · rw [finalizeBucket_of_finished b hf]
    exact h

theorem bucketRun_inv (vps : List Rect) (b : FeatureBucket) (h : BucketInv b) :
    BucketInv (bucketRun vps b).1 := by
  induction vps generalizing b with
  | nil => exact h
  | cons v vs ih =>
    unfold bucketRun
    exact ih (processBucket v b).1 (processBucket_inv v b h)

theorem bucketGo_inv (vps : List Rect) (b : FeatureBucket) (h : BucketInv b) :
    BucketInv (bucketGo vps b).1 :=
  finalizeBucket_inv (bucketRun vps b).1 (bucketRun_inv vps b h)

/-- C6: the address matcher runs exactly once per bucket.  At step level:
the first pass whose viewport intersects a not-yet-touched bucket's bounds
stores the sorted matcher output in `m_addressFeatures`, sets the
first-contact flag and bumps the run counter; a pass over a bucket already
touched leaves `m_addressFeatures` and the run counter unchanged.  At run
level: after any `Go` over a freshly initialized working set, every bucket
has run the address matcher at most once — exactly once iff first contact
happened — and `m_addressFeatures` is the sorted matcher output (or still
empty if the viewport never intersected the bucket). -/
theorem c6_address_matcher_runs_once :
    (∀ (v : Rect) (b : FeatureBucket), b.m_finished = false →
      b.m_coveredByViewport = false → b.m_intersectsWithViewport = false →
      v.isIntersect b.m_bounds = true →
      (processBucket v b).1.m_addressFeatures = sortIds b.m_addressMatcher ∧
      (processBucket v b).1.m_intersectsWithViewport = true ∧
      (processBucket v b).1.addrMatcherRuns = b.addrMatcherRuns + 1) ∧
    (∀ (v : Rect) (b : FeatureBucket), b.m_intersectsWithViewport = true →
      (processBucket v b).1.m_addressFeatures = b.m_addressFeatures ∧
      (processBucket v b).1.addrMatcherRuns = b.addrMatcherRuns) ∧
    (∀ (mul : Int) (limits : Limits) (base : Rect) (fuel : Nat)
       (buckets : List FeatureBucket) (r : GoResult),
      (∀ b ∈ buckets, FreshBucket b) →
      Go mul limits base fuel buckets = some r →
      ∀ b2 ∈ r.buckets,
        b2.addrMatcherRuns ≤ 1 ∧
        (b2.m_intersectsWithViewport = true ↔ b2.addrMatcherRuns = 1) ∧
        (b2.m_intersectsWithViewport = true →
          b2.m_addressFeatures = sortIds b2.m_addressMatcher) ∧
        (b2.m_intersectsWithViewport = false → b2.m_addressFeatures = [])) := by
  refine ⟨?_, ?_, ?_⟩
  · intro v b hfin hcv hb hint
    rw [processBucket_nonskip v b hcv hfin hint]
    dsimp only
    by_cases hr : v.isRectInside b.m_bounds = true <;>
      simp [hb, hcv, hr]
  · intro v b hb
    by_cases hsk : (b.m_coveredByViewport || b.m_finished || !(v.isIntersect b.m_bounds)) = true
    · rw [processBucket_skip v b hsk]
      exact ⟨rfl, rfl⟩
    · have hcv : b.m_coveredByViewport = false := by
        cases hx : b.m_coveredByViewport
        · rfl
        · exact absurd (by simp [hx]) hsk
      have hfin : b.m_finished = false := by
        cases hx : b.m_finished
        · rfl
        · exact absurd (by simp [hx]) hsk
      have hint : v.isIntersect b.m_bounds = true := by
        cases hx : v.isIntersect b.m_bounds
        · exact absurd (by simp [hx, hcv, hfin]) hsk
        · rfl
      rw [processBucket_nonskip v b hcv hfin hint]
      dsimp only
      by_cases hr : v.isRectInside b.m_bounds = true <;>
        simp [hb, hcv, hr]
  · intro mul limits base fuel buckets r hfresh hgo b2 hb2
    obtain ⟨vps, hb, -⟩ := Go_bridge mul limits base fuel buckets r hgo
    rw [hb] at hb2
    obtain ⟨a, ha, ha2⟩ := List.mem_map.mp hb2
    have hinv : BucketInv b2 := by
      rw [← ha2]
      exact bucketGo_inv vps a (freshBucket_inv a (hfresh a ha))
    obtain ⟨hi1, hi2, -⟩ := hinv
    cases hiv : b2.m_intersectsWithViewport
    · obtain ⟨hf, hruns⟩ := hi2 hiv
      exact ⟨by omega, by simp [hiv, hruns], by simp [hiv], fun _ => hf⟩
    · obtain ⟨hf, hruns⟩ := hi1 hiv
      exact ⟨by omega, by simp [hiv, hruns], fun _ => hf, by simp [hiv]⟩

/-- C6 witness: the run-level statement evaluated on a concrete retrieval
with one bucket that is covered on the first pass, fully instantiated at
that bucket's final state. -/
theorem c6_address_matcher_runs_once_witness :
    (⟨7, ⟨0, 0, 2, 2⟩, [3, 1], fun _ => [1, 2], [1, 3], [1, 2], [1],
      true, true, true, 1⟩ : FeatureBucket).addrMatcherRuns ≤ 1 ∧
    ((⟨7, ⟨0, 0, 2, 2⟩, [3, 1], fun _ => [1, 2], [1, 3], [1, 2], [1],
      true, true, true, 1⟩ : FeatureBucket).m_intersectsWithViewport = true ↔
     (⟨7, ⟨0, 0, 2, 2⟩, [3, 1], fun _ => [1, 2], [1, 3], [1, 2], [1],
      true, true, true, 1⟩ : FeatureBucket).addrMatcherRuns = 1) ∧
    (⟨7, ⟨0, 0, 2, 2⟩, [3, 1], fun _ => [1, 2], [1, 3], [1, 2], [1],
      true, true, true, 1⟩ : FeatureBucket).m_addressFeatures =
      sortIds (⟨7, ⟨0, 0, 2, 2⟩, [3, 1], fun _ => [1, 2], [1, 3], [1, 2], [1],
        true, true, true, 1⟩ : FeatureBucket).m_addressMatcher := by
  have h := c6_address_matcher_runs_once.2.2 2 Limits.default ⟨0, 0, 2, 2⟩ 1
    [⟨7, ⟨0, 0, 2, 2⟩, [3, 1], fun _ => [1, 2], [], [], [], false, false, false, 0⟩]
    ⟨[⟨7, ⟨0, 0, 2, 2⟩, [3, 1], fun _ => [1, 2], [1, 3], [1, 2], [1],
        true, true, true, 1⟩], [(7, [1])], true, 1⟩
    (by
      intro b hb
      rw [List.mem_singleton] at hb
      subst hb
      exact ⟨rfl, rfl, rfl, rfl, rfl, rfl, rfl⟩)
    (by rfl)
    ⟨7, ⟨0, 0, 2, 2⟩, [3, 1], fun _ => [1, 2], [1, 3], [1, 2], [1],
      true, true, true, 1⟩
    (List.mem_singleton_self _)
  exact ⟨h.1, h.2.1, h.2.2.1 rfl⟩

/-! ### Counting sink calls per tile id -/

theorem countId_append (x : Nat) (l1 l2 : List SinkCall) :
    countId x (l1 ++ l2) = countId x l1 + countId x l2 :=
  List.countP_append _ _ _

theorem countId_flatten (x : Nat) (L : List (List SinkCall)) :
    countId x L.flatten = (L.map (countId x)).sum := by
  induction L with
  | nil => rfl
  | cons l L ih =>
    simp only [List.flatten_cons, List.map_cons, List.sum_cons, countId_append, ih]

theorem bucketGo_calls_id (vps : List Rect) (b : FeatureBucket) :
    ∀ c ∈ (bucketGo vps b).2, c.1 = b.m_mwmId ∧
      c.2 = (bucketGo vps b).1.m_intersection := by
  intro c hc
  cases hf : b.m_finished
  · rw [bucketGo_calls vps b hf] at hc
    by_cases hie : (bucketGo vps b).1.m_intersection.isEmpty = true
    · rw [if_pos hie] at hc
      exact absurd hc (by simp)
    · rw [if_neg hie] at hc
      rw [List.mem_singleton] at hc
      subst hc
      exact ⟨(bucketGo_fixed_fields vps b).1, rfl⟩
  · rw [bucketGo_of_finished vps b hf] at hc
    exact absurd hc (by simp)

theorem countId_bucketGo_ne (vps : List Rect) (b : FeatureBucket) (x : Nat)
    (h : b.m_mwmId ≠ x) : countId x (bucketGo vps b).2 = 0 := by
  unfold countId
  rw [List.countP_eq_zero]
  intro c hc
  have := (bucketGo_calls_id vps b c hc).1
  simp only [this, decide_eq_true_eq]
  exact h

theorem countId_bucketGo_self (vps : List Rect) (b : FeatureBucket)
    (hf : b.m_finished = false) :
    countId b.m_mwmId (bucketGo vps b).2 =
      (if (bucketGo vps b).1.m_intersection.isEmpty then 0 else 1) := by
  rw [bucketGo_calls vps b hf]
  by_cases hie : (bucketGo vps b).1.m_intersection.isEmpty = true
  · rw [if_pos hie, if_pos hie]
    rfl
  · rw [if_neg hie, if_neg hie]
    unfold countId
    rw [List.countP_singleton]
    have : (bucketGo vps b).1.m_mwmId = b.m_mwmId := (bucketGo_fixed_fields vps b).1
    simp [this]

theorem countId_bucketGo_le_one (vps : List Rect) (b : FeatureBucket) (x : Nat) :
    countId x (bucketGo vps b).2 ≤ 1 := by
  cases hf : b.m_finished
  · rw [bucketGo_calls vps b hf]
    by_cases hie : (bucketGo vps b).1.m_intersection.isEmpty = true
    · rw [if_pos hie]
      exact Nat.zero_le 1
    · rw [if_neg hie]
      exact List.countP_le_length _
  · rw [bucketGo_of_finished vps b hf]
    exact Nat.zero_le 1

theorem countId_flatten_zero (vps : List Rect) (x : Nat) :
    ∀ l : List FeatureBucket, (∀ a ∈ l, a.m_mwmId ≠ x) →
    countId x ((l.map fun b => (bucketGo vps b).2).flatten) = 0 := by
  intro l
  induction l with
  | nil => intro _; rfl
  | cons b l ih =>
    intro h
    simp only [List.map_cons, List.flatten_cons, countId_append]
    rw [countId_bucketGo_ne vps b x (h b (List.mem_cons_self b l)),
      ih fun a ha => h a (List.mem_cons_of_mem b ha)]

theorem countId_flatten_le_one (vps : List Rect) (x : Nat) :
    ∀ l : List FeatureBucket, (l.map fun b => b.m_mwmId).Nodup →
    countId x ((l.map fun b => (bucketGo vps b).2).flatten) ≤ 1 := by
  intro l
  induction l with
  | nil => intro _; exact Nat.zero_le 1
  | cons b l ih =>
    intro hnd
    rw [List.map_cons, List.nodup_cons] at hnd
    simp only [List.map_cons, List.flatten_cons, countId_append]
    by_cases hx : b.m_mwmId = x
    · have hz : countId x ((l.map fun a => (bucketGo vps a).2).flatten) = 0 :=
        countId_flatten_zero vps x l fun a ha hax =>
          hnd.1 (List.mem_map.mpr ⟨a, ha, hax.trans hx.symm⟩)
      rw [hz]
      have := countId_bucketGo_le_one vps b x
      omega
    · rw [countId_bucketGo_ne vps b x hx, Nat.zero_add]
      exact ih hnd.2

theorem countId_flatten_get (vps : List Rect) :
    ∀ (l : List FeatureBucket), (l.map fun b => b.m_mwmId).Nodup →
    ∀ (i : Nat) (hi : i < l.length),
    countId (l.get ⟨i, hi⟩).m_mwmId ((l.map fun b => (bucketGo vps b).2).flatten) =
      countId (l.get ⟨i, hi⟩).m_mwmId (bucketGo vps (l.get ⟨i, hi⟩)).2 := by
  intro l
  induction l with
  | nil => intro _ i hi; exact absurd hi (by simp)
  | cons b l ih =>
    intro hnd i hi
    rw [List.map_cons, List.nodup_cons] at hnd
    cases i with
    | zero =>
      have hget : (b :: l).get ⟨0, hi⟩ = b := rfl
      rw [hget]
      simp only [List.map_cons, List.flatten_cons, countId_append]
      have hz : countId b.m_mwmId ((l.map fun a => (bucketGo vps a).2).flatten) = 0 :=
        countId_flatten_zero vps b.m_mwmId l fun a ha hax =>
          hnd.1 (List.mem_map.mpr ⟨a, ha, hax⟩)
      rw [hz, Nat.add_zero]
    | succ j =>
      have hj : j < l.length := Nat.lt_of_succ_lt_succ hi
      have hget : (b :: l).get ⟨j + 1, hi⟩ = l.get ⟨j, hj⟩ := rfl
      rw [hget]
      simp only [List.map_cons, List.flatten_cons, countId_append]
      have hne : b.m_mwmId ≠ (l.get ⟨j, hj⟩).m_mwmId := by
        intro he
        exact hnd.1 (List.mem_map.mpr ⟨l.get ⟨j, hj⟩, List.get_mem l j hj, he.symm⟩)
      rw [countId_bucketGo_ne vps b _ hne, Nat.zero_add, ih hnd.2 j hj]

/-- C2: in every run of `Go` over a freshly initialized working set with
distinct tile ids, the sink is invoked for a bucket iff that bucket's
intersection is non-empty at the moment the bucket transitions to finished
(the bucket's final intersection, since finished buckets are never mutated
again), every call for a bucket carries exactly that intersection, and the
sink is invoked at most once per distinct tile id per run. -/
theorem c2_sink_once_iff_nonempty (mul : Int) (limits : Limits) (base : Rect)
    (fuel : Nat) (buckets : List FeatureBucket) (r : GoResult)
    (hfresh : ∀ b ∈ buckets, b.m_finished = false)
    (hnodup : (buckets.map fun b => b.m_mwmId).Nodup)
    (hgo : Go mul limits base fuel buckets = some r) :
    (∀ x, countId x r.calls ≤ 1) ∧
    r.buckets.length = buckets.length ∧
    (∀ (i : Nat) (hi : i < buckets.length) (hi2 : i < r.buckets.length),
      (r.buckets.get ⟨i, hi2⟩).m_finished = true ∧
      countId (buckets.get ⟨i, hi⟩).m_mwmId r.calls =
        (if (r.buckets.get ⟨i, hi2⟩).m_intersection.isEmpty then 0 else 1) ∧
      ∀ lpay : List Nat, ((buckets.get ⟨i, hi⟩).m_mwmId, lpay) ∈ r.calls →
        lpay = (r.buckets.get ⟨i, hi2⟩).m_intersection) := by
  obtain ⟨vps, hbk, hcl⟩ := Go_bridge mul limits base fuel buckets r hgo
  have hcount : ∀ x, countId x r.calls =
      countId x ((buckets.map fun b => (bucketGo vps b).2).flatten) :=
    fun x => hcl.countP_eq _
  refine ⟨?_, ?_, ?_⟩
  · intro x
    rw [hcount x]
    exact countId_flatten_le_one vps x buckets hnodup
  · rw [hbk, List.length_map]
  · intro i hi hi2
    have hgeti : r.buckets.get ⟨i, hi2⟩ =
        (bucketGo vps (buckets.get ⟨i, hi⟩)).1 := by
      have := List.get_of_eq hbk ⟨i, hi2⟩
      rw [this, List.get_map]
    have hfi : (buckets.get ⟨i, hi⟩).m_finished = false :=
      hfresh _ (List.get_mem buckets i hi)
    refine ⟨?_, ?_, ?_⟩
    · rw [hgeti]
      exact bucketGo_finished vps _
    · rw [hcount, countId_flatten_get vps buckets hnodup i hi, hgeti,
        countId_bucketGo_self vps _ hfi]
    · intro lpay hmem
      have hmem2 : ((buckets.get ⟨i, hi⟩).m_mwmId, lpay) ∈
          ((buckets.map fun b => (bucketGo vps b).2).flatten) :=
        (hcl.mem_iff).mp hmem
      obtain ⟨lc, hlc, hcmem⟩ := List.mem_flatten.mp hmem2
      obtain ⟨a, ha, hae⟩ := List.mem_map.mp hlc
      rw [← hae] at hcmem
      obtain ⟨hid, hpay⟩ := bucketGo_calls_id vps a _ hcmem
      have haeq : a = buckets.get ⟨i, hi⟩ :=
        List.inj_on_of_nodup_map hnodup ha (List.get_mem buckets i hi) hid.symm
      rw [hgeti, ← haeq]
      exact hpay

/-- C2 witness: the statement evaluated on a concrete one-bucket retrieval
whose sink fires once with the bucket's intersection. -/
theorem c2_sink_once_iff_nonempty_witness :
    (∀ x, countId x (⟨[⟨7, ⟨0, 0, 2, 2⟩, [3, 1], fun _ => [1, 2], [1, 3], [1, 2], [1],
        true, true, true, 1⟩], [(7, [1])], true, 1⟩ : GoResult).calls ≤ 1) ∧
    (⟨[⟨7, ⟨0, 0, 2, 2⟩, [3, 1], fun _ => [1, 2], [1, 3], [1, 2], [1],
        true, true, true, 1⟩], [(7, [1])], true, 1⟩ : GoResult).buckets.length =
      ([⟨7, ⟨0, 0, 2, 2⟩, [3, 1], fun _ => [1, 2], [], [], [], false, false, false, 0⟩] :
        List FeatureBucket).length ∧
    (∀ (i : Nat)
      (hi : i < ([⟨7, ⟨0, 0, 2, 2⟩, [3, 1], fun _ => [1, 2], [], [], [], false, false,
        false, 0⟩] : List FeatureBucket).length)
      (hi2 : i < (⟨[⟨7, ⟨0, 0, 2, 2⟩, [3, 1], fun _ => [1, 2], [1, 3], [1, 2], [1],
        true, true, true, 1⟩], [(7, [1])], true, 1⟩ : GoResult).buckets.length),
      ((⟨[⟨7, ⟨0, 0, 2, 2⟩, [3, 1], fun _ => [1, 2], [1, 3], [1, 2], [1],
        true, true, true, 1⟩], [(7, [1])], true, 1⟩ : GoResult).buckets.get
          ⟨i, hi2⟩).m_finished = true ∧
      countId (([⟨7, ⟨0, 0, 2, 2⟩, [3, 1], fun _ => [1, 2], [], [], [], false, false,
          false, 0⟩] : List FeatureBucket).get ⟨i, hi⟩).m_mwmId
        (⟨[⟨7, ⟨0, 0, 2, 2⟩, [3, 1], fun _ => [1, 2], [1, 3], [1, 2], [1],
        true, true, true, 1⟩], [(7, [1])], true, 1⟩ : GoResult).calls =
        (if ((⟨[⟨7, ⟨0, 0, 2, 2⟩, [3, 1], fun _ => [1, 2], [1, 3], [1, 2], [1],
          true, true, true, 1⟩], [(7, [1])], true, 1⟩ : GoResult).buckets.get
            ⟨i, hi2⟩).m_intersection.isEmpty then 0 else 1) ∧
      ∀ lpay : List Nat,
        ((([⟨7, ⟨0, 0, 2, 2⟩, [3, 1], fun _ => [1, 2], [], [], [], false, false,
          false, 0⟩] : List FeatureBucket).get ⟨i, hi⟩).m_mwmId, lpay) ∈
          (⟨[⟨7, ⟨0, 0, 2, 2⟩, [3, 1], fun _ => [1, 2], [1, 3], [1, 2], [1],
            true, true, true, 1⟩], [(7, [1])], true, 1⟩ : GoResult).calls →
        lpay = ((⟨[⟨7, ⟨0, 0, 2, 2⟩, [3, 1], fun _ => [1, 2], [1, 3], [1, 2], [1],
          true, true, true, 1⟩], [(7, [1])], true, 1⟩ : GoResult).buckets.get
            ⟨i, hi2⟩).m_intersection) :=
  c2_sink_once_iff_nonempty 2 Limits.default ⟨0, 0, 2, 2⟩ 1
    [⟨7, ⟨0, 0, 2, 2⟩, [3, 1], fun _ => [1, 2], [], [], [], false, false, false, 0⟩]
    ⟨[⟨7, ⟨0, 0, 2, 2⟩, [3, 1], fun _ => [1, 2], [1, 3], [1, 2], [1],
        true, true, true, 1⟩], [(7, [1])], true, 1⟩
    (by
      intro b hb
      rw [List.mem_singleton] at hb
      subst hb
      rfl)
    (by simp)
    (by rfl)

/-! ### Sortedness of sink payloads -/

theorem sortIds_sorted (l : List Nat) : (sortIds l).Sorted (· ≤ ·) :=
  List.sorted_insertionSort (· ≤ ·) l

theorem sortIds_perm (l : List Nat) : (sortIds l).Perm l :=
  List.perm_insertionSort (· ≤ ·) l

theorem sortIds_nodup (l : List Nat) (h : l.Nodup) : (sortIds l).Nodup :=
  ((sortIds_perm l).symm).nodup h

theorem setIntersection_sublist_left :
    ∀ as bs : List Nat, (setIntersection as bs).Sublist as := by
  intro as
  induction as with
  | nil => intro bs; exact List.nil_sublist []
  | cons a as ih =>
    intro bs
    unfold setIntersection
    cases hdw : bs.dropWhile (fun b => decide (b < a)) with
    | nil => exact List.nil_sublist (a :: as)
    | cons b bs2 =>
      dsimp only
      by_cases hab : a = b
      · rw [if_pos hab]
        exact List.Sublist.cons₂ a (ih bs2)
      · rw [if_neg hab]
        exact List.Sublist.cons a (ih (b :: bs2))

theorem setIntersection_sublist_right :
    ∀ as bs : List Nat, (setIntersection as bs).Sublist bs := by
  intro as
  induction as with
  | nil => intro bs; exact List.nil_sublist bs
  | cons a as ih =>
    intro bs
    unfold setIntersection
    cases hdw : bs.dropWhile (fun b => decide (b < a)) with
    | nil => exact List.nil_sublist bs
    | cons b bs2 =>
      have hsub : (b :: bs2).Sublist bs := hdw ▸ List.dropWhile_sublist _
      dsimp only
      by_cases hab : a = b
      · rw [if_pos hab]
        subst hab
        exact List.Sublist.trans (List.Sublist.cons₂ a (ih bs2)) hsub
      · rw [if_neg hab]
        exact List.Sublist.trans (ih (b :: bs2)) hsub

/-- C3 (counterexample): when both matchers emit the same duplicated id,
`std::set_intersection` keeps the duplicate (min multiplicity), so the sink
invocation carries a sequence that is not strictly ascending. -/
theorem c3_counterexample :
    (Go 2 Limits.default ⟨0, 0, 2, 2⟩ 1
        [⟨0, ⟨0, 0, 2, 2⟩, [5, 5], fun _ => [5, 5], [], [], [], false, false, false, 0⟩]).map
      GoResult.calls = some [(0, [5, 5])] ∧
    ¬ List.Sorted (· < ·) [5, 5] := by
  constructor
  · rfl
  · decide

/-- C3 (amended): every sink invocation carries a sorted, duplicate-free,
strictly ascending sequence of feature ids, for all outputs of the two
matchers in which, for every bucket, at least one of the two raw outputs is
duplicate-free (duplicates confined to one side are eliminated by the
sorting followed by standard set intersection; a duplicate present in both
sides at once survives, see the counterexample). -/
theorem c3_sink_payload_strictly_ascending (mul : Int) (limits : Limits)
    (base : Rect) (fuel : Nat) (buckets : List FeatureBucket) (r : GoResult)
    (hfresh : ∀ b ∈ buckets, FreshBucket b)
    (hside : ∀ b ∈ buckets, b.m_addressMatcher.Nodup ∨
      ∀ v : Rect, (b.m_geometryMatcher v).Nodup)
    (hgo : Go mul limits base fuel buckets = some r) :
    ∀ c ∈ r.calls, List.Sorted (· < ·) c.2 ∧ c.2.Nodup := by
  obtain ⟨vps, -, hcl⟩ := Go_bridge mul limits base fuel buckets r hgo
  intro c hc
  have hc2 : c ∈ ((buckets.map fun b => (bucketGo vps b).2).flatten) :=
    (hcl.mem_iff).mp hc
  obtain ⟨lc, hlc, hcmem⟩ := List.mem_flatten.mp hc2
  obtain ⟨a, ha, hae⟩ := List.mem_map.mp hlc
  rw [← hae] at hcmem
  obtain ⟨-, hpay⟩ := bucketGo_calls_id vps a c hcmem
  have hinv : BucketInv (bucketGo vps a).1 :=
    bucketGo_inv vps a (freshBucket_inv a (hfresh a ha))
  have hfix := bucketGo_fixed_fields vps a
  have hsorted : List.Sorted (· < ·) c.2 := by
    rcases hinv.2.2 with hempty | ⟨gv, hform⟩
    · rw [hpay, hempty]
      exact List.sorted_nil
    · rw [hpay, hform, hfix.2.2.1, hfix.2.2.2]
      rcases hside a ha with hA | hG
      · have hsa : List.Sorted (· < ·) (sortIds a.m_addressMatcher) :=
          (sortIds_sorted _).lt_of_le (sortIds_nodup _ hA)
        exact hsa.sublist (setIntersection_sublist_left _ _)
      · have hsg : List.Sorted (· < ·) (sortIds (a.m_geometryMatcher gv)) :=
          (sortIds_sorted _).lt_of_le (sortIds_nodup _ (hG gv))
        exact hsg.sublist (setIntersection_sublist_right _ _)
  exact ⟨hsorted, List.Pairwise.imp ne_of_lt hsorted⟩

/-- C3 witness: the amended statement evaluated on a concrete retrieval
whose address matcher output is duplicate-free, at the single sink call. -/
theorem c3_sink_payload_strictly_ascending_witness :
    List.Sorted (· < ·) ((7, [1]) : SinkCall).2 ∧ ((7, [1]) : SinkCall).2.Nodup :=
  c3_sink_payload_strictly_ascending 2 Limits.default ⟨0, 0, 2, 2⟩ 1
    [⟨7, ⟨0, 0, 2, 2⟩, [3, 1], fun _ => [1, 2], [], [], [], false, false, false, 0⟩]
    ⟨[⟨7, ⟨0, 0, 2, 2⟩, [3, 1], fun _ => [1, 2], [1, 3], [1, 2], [1],
        true, true, true, 1⟩], [(7, [1])], true, 1⟩
    (by
      intro b hb
      rw [List.mem_singleton] at hb
      subst hb
      exact ⟨rfl, rfl, rfl, rfl, rfl, rfl, rfl⟩)
    (by
      intro b hb
      rw [List.mem_singleton] at hb
      subst hb
      exact Or.inl (by decide))
    (by rfl)
    (7, [1]) (List.mem_singleton_self _)

/-! ### Init builds a fresh working set -/

theorem init_foldl_aux :
    ∀ (hs : List MwmHandle) (st : Retrieval),
    hs.foldl
      (fun st h =>
        if h.isAlive then
          match h.value with
          | some v =>
            if v.hasSearchIndex && v.hasIndex then
              { st with m_buckets := st.m_buckets ++ [mkFeatureBucket h v] }
            else st
          | none => st
        else st)
      st =
    ⟨st.m_viewport, st.m_limits,
      st.m_buckets ++ hs.filterMap (fun h =>
        if h.isAlive = true then
          h.value.bind fun v =>
            if v.hasSearchIndex && v.hasIndex then some (mkFeatureBucket h v)
            else none
        else none)⟩ := by
  intro hs
  induction hs with
  | nil =>
    intro st
    simp
  | cons h hs ih =>
    intro st
    rw [List.foldl_cons, List.filterMap_cons, ih]
    by_cases ha : h.isAlive = true
    · cases hv : h.value with
      | none => simp [ha, hv]
      | some v =>
        by_cases hsec : (v.hasSearchIndex && v.hasIndex) = true
        · have hsec2 : v.hasSearchIndex = true ∧ v.hasIndex = true := by
            simpa using hsec
          simp [ha, hv, hsec, hsec2]
        · have hsec2 : ¬(v.hasSearchIndex = true ∧ v.hasIndex = true) := by
            simpa using hsec
          simp [ha, hv, hsec, hsec2]
    · simp [ha]

/-- C10: `Init` discards any previous working set entirely: the resulting
state does not depend on the prior state, captures the new viewport and
limits, and its bucket list consists of exactly one freshly-constructed
bucket (all flags false, all feature sequences empty) per registry handle
that is alive, has a value, and has both index sections, in registry
order. -/
theorem c10_init_resets_working_set (r r' : Retrieval)
    (handles : List MwmHandle) (viewport : Rect) (limits : Limits) :
    Retrieval.init r handles viewport limits =
      Retrieval.init r' handles viewport limits ∧
    (Retrieval.init r handles viewport limits).m_viewport = viewport ∧
    (Retrieval.init r handles viewport limits).m_limits = limits ∧
    (Retrieval.init r handles viewport limits).m_buckets =
      handles.filterMap (fun h =>
        if h.isAlive = true then
          h.value.bind fun v =>
            if v.hasSearchIndex && v.hasIndex then some (mkFeatureBucket h v)
            else none
        else none) ∧
    ∀ b ∈ (Retrieval.init r handles viewport limits).m_buckets, FreshBucket b := by
  have hinit : Retrieval.init r handles viewport limits =
      ⟨viewport, limits,
        handles.filterMap (fun h =>
          if h.isAlive = true then
            h.value.bind fun v =>
              if v.hasSearchIndex && v.hasIndex then some (mkFeatureBucket h v)
              else none
          else none)⟩ := by
    unfold Retrieval.init
    rw [init_foldl_aux]
    rfl
  have hinit' : Retrieval.init r' handles viewport limits =
      ⟨viewport, limits,
        handles.filterMap (fun h =>
          if h.isAlive = true then
            h.value.bind fun v =>
              if v.hasSearchIndex && v.hasIndex then some (mkFeatureBucket h v)
              else none
          else none)⟩ := by
    unfold Retrieval.init
    rw [init_foldl_aux]
    rfl
  refine ⟨hinit.trans hinit'.symm, by rw [hinit], by rw [hinit], by rw [hinit], ?_⟩
  intro b hb
  rw [hinit] at hb
  dsimp only at hb
  obtain ⟨h, -, hsome⟩ := List.mem_filterMap.mp hb
  by_cases ha : h.isAlive = true
  · rw [if_pos ha] at hsome
    cases hv : h.value with
    | none =>
      rw [hv] at hsome
      exact absurd hsome (by simp)
    | some v =>
      rw [hv] at hsome
      by_cases hsec : (v.hasSearchIndex && v.hasIndex) = true
      · rw [Option.some_bind, if_pos hsec] at hsome
        have hbv : b = mkFeatureBucket h v := (Option.some.inj hsome).symm
        rw [hbv]
        exact ⟨rfl, rfl, rfl, rfl, rfl, rfl, rfl⟩
      · rw [Option.some_bind, if_neg hsec] at hsome
        exact absurd hsome (by simp)
  · rw [if_neg ha] at hsome
    exact absurd hsome (by simp)

/-- C10 witness: `Init` at a concrete prior state and registry with one
admissible handle and one dead handle. -/
theorem c10_init_resets_working_set_witness :
    (Retrieval.init
        ⟨⟨9, 9, 9, 9⟩, Limits.default,
          [⟨5, ⟨0, 0, 1, 1⟩, [9], fun _ => [9], [9], [9], [9], true, true, true, 1⟩]⟩
        [⟨1, true, some ⟨true, true, ⟨0, 0, 4, 4⟩, [2], fun _ => [2]⟩⟩,
         ⟨2, false, some ⟨true, true, ⟨0, 0, 4, 4⟩, [3], fun _ => [3]⟩⟩]
        ⟨0, 0, 2, 2⟩ Limits.default).m_buckets =
      ([⟨1, true, some ⟨true, true, ⟨0, 0, 4, 4⟩, [2], fun _ => [2]⟩⟩,
        ⟨2, false, some ⟨true, true, ⟨0, 0, 4, 4⟩, [3], fun _ => [3]⟩⟩] :
          List MwmHandle).filterMap (fun h =>
        if h.isAlive = true then
          h.value.bind fun v =>
            if v.hasSearchIndex && v.hasIndex then some (mkFeatureBucket h v)
            else none
        else none) :=
  (c10_init_resets_working_set
    ⟨⟨9, 9, 9, 9⟩, Limits.default,
      [⟨5, ⟨0, 0, 1, 1⟩, [9], fun _ => [9], [9], [9], [9], true, true, true, 1⟩]⟩
    ⟨⟨9, 9, 9, 9⟩, Limits.default, []⟩
    [⟨1, true, some ⟨true, true, ⟨0, 0, 4, 4⟩, [2], fun _ => [2]⟩⟩,
     ⟨2, false, some ⟨true, true, ⟨0, 0, 4, 4⟩, [3], fun _ => [3]⟩⟩]
    ⟨0, 0, 2, 2⟩ Limits.default).2.2.2.1
